import Mathlib

/-!
# chip8run: the CHIP-8 interpreter of `src/main.c`

A shallow embedding of the interpreter core: the machine aggregate `vm`,
`run_timers`, the body of the `run_vm` loop, `frame`, `prepare_program`,
`key_code_to_hex` and `event`.

Modelling conventions.
* `uint8_t` and `uint16_t` values are natural numbers; every store into such a
  field is truncated with `u8` / `u16`, exactly where the C code narrows.
* `int` fields (`speed_up`, `micros`, `timer_micros`) are integers and `int`
  arithmetic is exact, so the definitions follow the C code as long as no `int`
  computation leaves the range of `int` (signed overflow is undefined in C).
  `int_range`, `run_timers_ok`, `step_ok` and `frame_quiet` state where that is
  the case; the theorems on the timer cadence and on splitting the elapsed time,
  whose statements depend on the accumulator arithmetic, assume them, and
  `run_timers_wrap` is `run_timers` with the arithmetic reduced to 32 bits, which
  agrees with `run_timers` there.
* Arrays are functions from the index; an access outside the C array is
  undefined behaviour and makes the function return `none`. Indices made of
  nibbles are below 16 by construction.
* `random()` and `sapp_frame_duration()` are inputs of the functions using them.
* The letterbox colour (`draw_state.pass_action`) and diagnostics on `stderr`
  are not part of the machine and are left out.
-/

namespace Chip8

def STACK_MAX : Nat := 16
def MEMORY_SIZE : Nat := 4096
def DISPLAY_WIDTH : Nat := 64
def DISPLAY_HEIGHT : Nat := 32
def FONT_OFFSET : Nat := 0x50
def PROGRAM_OFFSET : Nat := 0x200

/-- The enum `vm_state`. -/
inductive vm_state where
  | VM_INIT
  | VM_RUN
  | VM_WAIT_FOR_KEY
  | VM_STOPPED
  deriving DecidableEq

/-- The static aggregate `vm`. -/
structure Vm where
  state : vm_state
  speed_up : Int
  micros : Int
  timer_micros : Int
  key_dest : Nat
  keys : Nat → Bool
  pc : Nat
  i : Nat
  v : Nat → Nat
  stack : Nat → Nat
  stack_top : Nat
  delay_timer : Nat
  sound_timer : Nat
  memory : Nat → Nat
  display : Nat → Nat

/-- Narrowing to `uint8_t`. -/
def u8 (n : Nat) : Nat := n % 256

/-- Narrowing of a signed intermediate result to `uint8_t`. -/
def u8i (z : Int) : Nat := (z % 256).toNat

/-- Narrowing to `uint16_t`. -/
def u16 (n : Nat) : Nat := n % 65536

/-- Array write `a[k] = x`. -/
def store {α : Type} (a : Nat → α) (k : Nat) (x : α) : Nat → α :=
  fun j => if j = k then x else a j

/-- The result of `memset(&vm, 0, sizeof(vm))`. -/
def zeroed : Vm :=
  { state := vm_state.VM_INIT
    speed_up := 0
    micros := 0
    timer_micros := 0
    key_dest := 0
    keys := fun _ => false
    pc := 0
    i := 0
    v := fun _ => 0
    stack := fun _ => 0
    stack_top := 0
    delay_timer := 0
    sound_timer := 0
    memory := fun _ => 0
    display := fun _ => 0 }

/-- The table `font_data` of `prepare_program`. -/
def font_data : List Nat :=
  [0xf0, 0x90, 0x90, 0x90, 0xf0,
   0x20, 0x60, 0x20, 0x20, 0x70,
   0xf0, 0x10, 0xf0, 0x80, 0xf0,
   0xf0, 0x10, 0xf0, 0x10, 0xf0,
   0x90, 0x90, 0xf0, 0x10, 0x10,
   0xf0, 0x80, 0xf0, 0x10, 0xf0,
   0xf0, 0x80, 0xf0, 0x90, 0xf0,
   0xf0, 0x10, 0x20, 0x40, 0x40,
   0xf0, 0x90, 0xf0, 0x90, 0xf0,
   0xf0, 0x90, 0xf0, 0x10, 0xf0,
   0xf0, 0x90, 0xf0, 0x90, 0x90,
   0xe0, 0x90, 0xe0, 0x90, 0xe0,
   0xf0, 0x80, 0x80, 0x80, 0xf0,
   0xe0, 0x90, 0x90, 0x90, 0xe0,
   0xf0, 0x80, 0xf0, 0x80, 0xf0,
   0xf0, 0x80, 0xf0, 0x80, 0x80]

/-- The call `memcpy(dst + off, src, size)` on a byte array. -/
def memcpy (dst : Nat → Nat) (off : Nat) (src : List Nat) (size : Nat) : Nat → Nat :=
  fun a => if off ≤ a ∧ a < off + size then src.getD (a - off) 0 else dst a

/-- The function `prepare_program`; `size` is the length of the buffer. -/
def prepare_program (program_data : List Nat) (s : Vm) : Vm :=
  if program_data.length > MEMORY_SIZE - PROGRAM_OFFSET then
    { s with state := vm_state.VM_INIT }
  else
    { zeroed with
      memory := memcpy (memcpy zeroed.memory FONT_OFFSET font_data font_data.length)
        PROGRAM_OFFSET program_data program_data.length
      pc := PROGRAM_OFFSET
      state := vm_state.VM_RUN }

/-- The function `run_timers`. The subtraction and the addition are exact; they are those
of the C code when `run_timers_ok` holds. -/
def run_timers (micros : Int) (s : Vm) : Vm :=
  let s1 := { s with timer_micros := s.timer_micros - micros }
  if s1.timer_micros ≤ 0 then
    let s2 := if s1.delay_timer > 0 then { s1 with delay_timer := s1.delay_timer - 1 } else s1
    let s3 := if s2.sound_timer > 0 then { s2 with sound_timer := s2.sound_timer - 1 } else s2
    { s3 with timer_micros := s3.timer_micros + 16667 }
  else s1

/-- The macro `DELAY(t)`. -/
def DELAY (t : Int) (s : Vm) : Vm :=
  run_timers t { s with micros := s.micros - t }

/-- The macro `STOP`: the `return` leaves the loop, which the zeroed budget does as well. -/
def STOP (s : Vm) : Vm :=
  { s with state := vm_state.VM_STOPPED, micros := 0 }

/-- The address operand `n1 << 8 | n2 << 4 | n3`. -/
def nnn (n1 n2 n3 : Nat) : Nat := n1 <<< 8 ||| n2 <<< 4 ||| n3

/-- The byte operand `n2 << 4 | n3`. -/
def nn (n2 n3 : Nat) : Nat := n2 <<< 4 ||| n3

/-- Opcode family `0`: `00e0` and `00ee`, after the two `CHECK_N`. The pop reads
`stack[stack_top - 1]`, which lies in the array as long as `stack_top ≤ 16`. -/
def run_vm_case_0 (n1 n2 n3 : Nat) (s : Vm) : Option Vm :=
  if n1 ≠ 0x0 then some (STOP s)
  else if n2 ≠ 0xe then some (STOP s)
  else if n3 = 0x0 then
    some (DELAY 109 { s with
      display := fun k => if k < DISPLAY_WIDTH * DISPLAY_HEIGHT / 8 then 0 else s.display k })
  else if n3 = 0xe then
    if s.stack_top = 0 then some (STOP s)
    else
      let top := u8 (s.stack_top - 1)
      if top < STACK_MAX then some (DELAY 105 { s with stack_top := top, pc := s.stack top })
      else none
  else some s

/-- Opcode `2nnn`. -/
def run_vm_case_2 (n1 n2 n3 : Nat) (s : Vm) : Vm :=
  if s.stack_top ≥ STACK_MAX then STOP s
  else
    DELAY 105 { s with
      stack := store s.stack s.stack_top s.pc
      stack_top := u8 (s.stack_top + 1)
      pc := u16 (nnn n1 n2 n3) }

/-- Opcode family `8`. -/
def run_vm_case_8 (n1 n2 n3 : Nat) (s : Vm) : Vm :=
  match n3 with
  | 0x0 => DELAY 200 { s with v := store s.v n1 (s.v n2) }
  | 0x1 =>
    let v1 := store s.v n1 (u8 (s.v n1 ||| s.v n2))
    DELAY 200 { s with v := store v1 0xf 0 }
  | 0x2 =>
    let v1 := store s.v n1 (u8 (s.v n1 &&& s.v n2))
    DELAY 200 { s with v := store v1 0xf 0 }
  | 0x3 =>
    let v1 := store s.v n1 (u8 (s.v n1 ^^^ s.v n2))
    DELAY 200 { s with v := store v1 0xf 0 }
  | 0x4 =>
    let old_x := s.v n1
    let v1 := store s.v n1 (u8 (s.v n1 + s.v n2))
    DELAY 200 { s with v := store v1 0xf (if v1 n1 < old_x then 1 else 0) }
  | 0x5 =>
    let borrow := if s.v n1 ≥ s.v n2 then 1 else 0
    let v1 := store s.v n1 (u8i ((s.v n1 : Int) - (s.v n2 : Int)))
    DELAY 200 { s with v := store v1 0xf borrow }
  | 0x6 =>
    let lsb := u8 (s.v n2 &&& 0x01)
    let v1 := store s.v n1 (u8 (s.v n2 >>> 1))
    DELAY 200 { s with v := store v1 0xf lsb }
  | 0x7 =>
    let borrow := if s.v n2 ≥ s.v n1 then 1 else 0
    let v1 := store s.v n1 (u8i ((s.v n2 : Int) - (s.v n1 : Int)))
    DELAY 200 { s with v := store v1 0xf borrow }
  | 0xe =>
    let msb := if s.v n2 &&& 0x40 ≠ 0 then 1 else 0
    let v1 := store s.v n1 (u8 (s.v n2 <<< 1))
    DELAY 200 { s with v := store v1 0xf msb }
  | _ => STOP s

/-- One iteration of the row loop of `dxyn`, for row counter `yy`. -/
def sprite_row (x y yy : Nat) (s : Vm) : Vm :=
  let mask := u8 (s.memory (s.i + yy) >>> (x &&& 7))
  let dest := (((y + yy) &&& 31) * DISPLAY_WIDTH + x) / 8
  let s1 := { s with v := store s.v 0xf (u8 (s.v 0xf ||| (s.display dest &&& mask))) }
  let s2 := { s1 with display := store s1.display dest (u8 (s1.display dest ^^^ mask)) }
  if x &&& 7 ≠ 0 then
    let mask2 := u8 (s2.memory (s2.i + yy) <<< (8 - (x &&& 7)))
    let dest2 := if x < 56 then dest + 1 else dest - 7
    let s3 := { s2 with v := store s2.v 0xf (u8 (s2.v 0xf ||| (s2.display dest2 &&& mask2))) }
    { s3 with display := store s3.display dest2 (u8 (s3.display dest2 ^^^ mask2)) }
  else s2

/-- The loop `for (yy = 0; yy < h; ++yy)` of `dxyn`, with `rem` iterations left. -/
def sprite_loop (x y : Nat) : Nat → Nat → Vm → Option Vm
  | 0, _, s => some s
  | rem + 1, yy, s =>
    if s.i + yy < MEMORY_SIZE then sprite_loop x y rem (yy + 1) (sprite_row x y yy s)
    else none

/-- Opcode `dxyn`. -/
def run_vm_case_d (n1 n2 n3 : Nat) (s : Vm) : Option Vm :=
  let x := u8 (s.v n1 &&& 63)
  let y := u8 (s.v n2 &&& 31)
  let h := n3
  let s1 := { s with v := store s.v 0xf 0 }
  (sprite_loop x y h 0 s1).map fun s2 =>
    DELAY 22734 { s2 with v := store s2.v 0xf (if s2.v 0xf ≠ 0 then 1 else 0) }

/-- Opcode family `e`. -/
def run_vm_case_e (n1 n2 n3 : Nat) (s : Vm) : Option Vm :=
  if nn n2 n3 = 0x9e then
    if s.v n1 < 16 then
      some (DELAY 73 (if s.keys (s.v n1) then { s with pc := u16 (s.pc + 2) } else s))
    else none
  else if nn n2 n3 = 0xa1 then
    if s.v n1 < 16 then
      some (DELAY 73 (if !s.keys (s.v n1) then { s with pc := u16 (s.pc + 2) } else s))
    else none
  else some (STOP s)

/-- The loop of `fx55`, with `rem` iterations left. -/
def save_loop : Nat → Nat → Vm → Option Vm
  | 0, _, s => some s
  | rem + 1, ii, s =>
    if s.i + ii < MEMORY_SIZE then
      save_loop rem (ii + 1) { s with memory := store s.memory (s.i + ii) (s.v ii) }
    else none

/-- The loop of `fx65`, with `rem` iterations left. -/
def load_loop : Nat → Nat → Vm → Option Vm
  | 0, _, s => some s
  | rem + 1, ii, s =>
    if s.i + ii < MEMORY_SIZE then
      load_loop rem (ii + 1) { s with v := store s.v ii (s.memory (s.i + ii)) }
    else none

/-- Opcode family `f`. -/
def run_vm_case_f (n1 n2 n3 : Nat) (s : Vm) : Option Vm :=
  if nn n2 n3 = 0x07 then
    some (DELAY 45 { s with v := store s.v n1 s.delay_timer })
  else if nn n2 n3 = 0x0a then
    let s1 := { s with key_dest := n1, state := vm_state.VM_WAIT_FOR_KEY }
    let s2 := run_timers s1.micros s1
    some { s2 with micros := 0 }
  else if nn n2 n3 = 0x15 then
    some (DELAY 45 { s with delay_timer := s.v n1 })
  else if nn n2 n3 = 0x18 then
    some (DELAY 45 { s with sound_timer := s.v n1 })
  else if nn n2 n3 = 0x1e then
    some (DELAY 86 { s with i := u16 (s.i + s.v n1) })
  else if nn n2 n3 = 0x29 then
    some (DELAY 91 { s with i := u16 (FONT_OFFSET + s.v n1 * 5) })
  else if nn n2 n3 = 0x33 then
    if s.i + 2 < MEMORY_SIZE then
      let m1 := store s.memory s.i (u8 (s.v n1 / 100))
      let m2 := store m1 (s.i + 1) (u8 (s.v n1 / 10 % 10))
      let m3 := store m2 (s.i + 2) (u8 (s.v n1 % 10))
      some (DELAY 927 { s with memory := m3 })
    else none
  else if nn n2 n3 = 0x55 then
    (save_loop (n1 + 1) 0 s).map fun s1 => DELAY 605 { s1 with i := u16 (s1.i + (n1 + 1)) }
  else if nn n2 n3 = 0x65 then
    (load_loop (n1 + 1) 0 s).map fun s1 => DELAY 605 { s1 with i := u16 (s1.i + (n1 + 1)) }
  else some (STOP s)

/-- The `switch (n0)` of `run_vm`; `r` is what `random()` returns. -/
def run_vm_switch (r n0 n1 n2 n3 : Nat) (s : Vm) : Option Vm :=
  match n0 with
  | 0x0 => run_vm_case_0 n1 n2 n3 s
  | 0x1 => some (DELAY 105 { s with pc := u16 (nnn n1 n2 n3) })
  | 0x2 => some (run_vm_case_2 n1 n2 n3 s)
  | 0x3 =>
    some (DELAY 55 (if s.v n1 = nn n2 n3 then { s with pc := u16 (s.pc + 2) } else s))
  | 0x4 =>
    some (DELAY 55 (if s.v n1 ≠ nn n2 n3 then { s with pc := u16 (s.pc + 2) } else s))
  | 0x5 =>
    if n3 ≠ 0x0 then some (STOP s)
    else some (DELAY 73 (if s.v n1 = s.v n2 then { s with pc := u16 (s.pc + 2) } else s))
  | 0x6 => some (DELAY 27 { s with v := store s.v n1 (u8 (nn n2 n3)) })
  | 0x7 => some (DELAY 45 { s with v := store s.v n1 (u8 (s.v n1 + nn n2 n3)) })
  | 0x8 => some (run_vm_case_8 n1 n2 n3 s)
  | 0x9 =>
    if n3 ≠ 0x0 then some (STOP s)
    else some (DELAY 73 (if s.v n1 ≠ s.v n2 then { s with pc := u16 (s.pc + 2) } else s))
  | 0xa => some (DELAY 55 { s with i := u16 (nnn n1 n2 n3) })
  | 0xb => some (DELAY 105 { s with pc := u16 (u16 (nnn n1 n2 n3) + s.v 0) })
  | 0xc => some (DELAY 164 { s with v := store s.v n1 (u8 (r &&& 0xff &&& nn n2 n3)) })
  | 0xd => run_vm_case_d n1 n2 n3 s
  | 0xe => run_vm_case_e n1 n2 n3 s
  | 0xf => run_vm_case_f n1 n2 n3 s
  | _ => some s

/-- First nibble of the instruction word at `pc`. -/
def fetch_n0 (s : Vm) : Nat := u8 (s.memory s.pc >>> 4)

/-- Second nibble of the instruction word at `pc`. -/
def fetch_n1 (s : Vm) : Nat := u8 (s.memory s.pc &&& 0xf)

/-- Third nibble of the instruction word at `pc`. -/
def fetch_n2 (s : Vm) : Nat := u8 (s.memory (s.pc + 1) >>> 4)

/-- Fourth nibble of the instruction word at `pc`. -/
def fetch_n3 (s : Vm) : Nat := u8 (s.memory (s.pc + 1) &&& 0xf)

/-- The body of the `while (vm.micros > 0)` loop of `run_vm`: fetch, decode,
advance `pc`, execute one instruction. -/
def run_vm_step (r : Nat) (s : Vm) : Option Vm :=
  if s.pc + 1 < MEMORY_SIZE then
    run_vm_switch r (fetch_n0 s) (fetch_n1 s) (fetch_n2 s) (fetch_n3 s)
      { s with pc := u16 (s.pc + 2) }
  else none

/-- The loop `while (vm.micros > 0)`, bounded by `fuel` iterations; iteration `k`
takes `rnd k` from `random()`. -/
def run_vm_loop (rnd : Nat → Nat) : Nat → Nat → Vm → Option Vm
  | 0, _, s => if 0 < s.micros then none else some s
  | fuel + 1, k, s =>
    if 0 < s.micros then (run_vm_step (rnd k) s).bind (run_vm_loop rnd fuel (k + 1))
    else some s

/-- The function `run_vm`; `elapsed` is `(int)(sapp_frame_duration() * 1000000.0)`. -/
def run_vm (elapsed : Int) (rnd : Nat → Nat) (fuel : Nat) (s : Vm) : Option Vm :=
  run_vm_loop rnd fuel 0 { s with micros := s.micros + elapsed * (s.speed_up + 1) }

/-- The function `white_noise`. -/
def white_noise (rnd : Nat → Nat) (s : Vm) : Vm :=
  { s with display := fun k =>
      if k < DISPLAY_WIDTH * DISPLAY_HEIGHT / 8 then u8 (rnd k &&& 0xff) else s.display k }

/-- The machine part of `frame`. -/
def frame (elapsed : Int) (rnd : Nat → Nat) (fuel : Nat) (s : Vm) : Option Vm :=
  if s.state = vm_state.VM_INIT then some (white_noise rnd s)
  else if s.state = vm_state.VM_RUN then run_vm elapsed rnd fuel s
  else if s.state = vm_state.VM_WAIT_FOR_KEY then
    some (run_timers (elapsed * (s.speed_up + 1)) s)
  else some s

/-- The key codes of `sapp_keycode` that `main.c` names; `SAPP_KEYCODE_OTHER` stands
for every other one. -/
inductive sapp_keycode where
  | SAPP_KEYCODE_UP | SAPP_KEYCODE_LEFT | SAPP_KEYCODE_DOWN | SAPP_KEYCODE_RIGHT
  | SAPP_KEYCODE_SPACE | SAPP_KEYCODE_ENTER | SAPP_KEYCODE_BACKSPACE
  | SAPP_KEYCODE_X | SAPP_KEYCODE_1 | SAPP_KEYCODE_2 | SAPP_KEYCODE_3
  | SAPP_KEYCODE_Q | SAPP_KEYCODE_W | SAPP_KEYCODE_E | SAPP_KEYCODE_A
  | SAPP_KEYCODE_S | SAPP_KEYCODE_D | SAPP_KEYCODE_Z | SAPP_KEYCODE_C
  | SAPP_KEYCODE_4 | SAPP_KEYCODE_R | SAPP_KEYCODE_F | SAPP_KEYCODE_V
  | SAPP_KEYCODE_ESCAPE | SAPP_KEYCODE_EQUAL | SAPP_KEYCODE_MINUS
  | SAPP_KEYCODE_OTHER
  deriving DecidableEq

/-- The event types `event` distinguishes; `SAPP_EVENTTYPE_OTHER` stands for the rest. -/
inductive sapp_event_type where
  | SAPP_EVENTTYPE_KEY_DOWN
  | SAPP_EVENTTYPE_KEY_UP
  | SAPP_EVENTTYPE_FILES_DROPPED
  | SAPP_EVENTTYPE_OTHER
  deriving DecidableEq

/-- The fields of `sapp_event` that `event` reads. -/
structure sapp_event where
  type : sapp_event_type
  key_code : sapp_keycode

open sapp_keycode in
/-- The function `key_code_to_hex`. -/
def key_code_to_hex (key_code : sapp_keycode) : Nat :=
  match key_code with
  | SAPP_KEYCODE_UP => 0x5
  | SAPP_KEYCODE_LEFT => 0x7
  | SAPP_KEYCODE_DOWN => 0x8
  | SAPP_KEYCODE_RIGHT => 0x9
  | SAPP_KEYCODE_SPACE => 0x6
  | SAPP_KEYCODE_ENTER => 0x6
  | SAPP_KEYCODE_BACKSPACE => 0x4
  | SAPP_KEYCODE_X => 0x0
  | SAPP_KEYCODE_1 => 0x1
  | SAPP_KEYCODE_2 => 0x2
  | SAPP_KEYCODE_3 => 0x3
  | SAPP_KEYCODE_Q => 0x4
  | SAPP_KEYCODE_W => 0x5
  | SAPP_KEYCODE_E => 0x6
  | SAPP_KEYCODE_A => 0x7
  | SAPP_KEYCODE_S => 0x8
  | SAPP_KEYCODE_D => 0x9
  | SAPP_KEYCODE_Z => 0xa
  | SAPP_KEYCODE_C => 0xb
  | SAPP_KEYCODE_4 => 0xc
  | SAPP_KEYCODE_R => 0xd
  | SAPP_KEYCODE_F => 0xe
  | SAPP_KEYCODE_V => 0xf
  | _ => 16

/-- The machine part of `event`: quitting and the asynchronous file load started by
a drop are outside the machine state. The write `vm.v[vm.key_dest]` lies in the
array as long as `key_dest < 16`. -/
def event (e : sapp_event) (s : Vm) : Option Vm :=
  if e.type = sapp_event_type.SAPP_EVENTTYPE_KEY_DOWN then
    if e.key_code = sapp_keycode.SAPP_KEYCODE_ESCAPE then some s
    else if e.key_code = sapp_keycode.SAPP_KEYCODE_EQUAL then
      if s.speed_up < 7 then some { s with speed_up := s.speed_up + 1 } else some s
    else if e.key_code = sapp_keycode.SAPP_KEYCODE_MINUS then
      if s.speed_up > 0 then some { s with speed_up := s.speed_up - 1 } else some s
    else
      let hex := key_code_to_hex e.key_code
      if hex < 16 then some { s with keys := store s.keys hex true } else some s
  else if e.type = sapp_event_type.SAPP_EVENTTYPE_KEY_UP then
    let hex := key_code_to_hex e.key_code
    if hex < 16 then
      let s1 := { s with keys := store s.keys hex false }
      if s1.state = vm_state.VM_WAIT_FOR_KEY then
        if s1.key_dest < 16 then
          some { s1 with v := store s1.v s1.key_dest hex, state := vm_state.VM_RUN }
        else none
      else some s1
    else some s
  else some s

/-- Every byte-typed cell holds a byte and every 16-bit cell a 16-bit value: the
range invariant the C types `uint8_t` and `uint16_t` enforce. -/
structure Vm.wf (s : Vm) : Prop where
  v_lt : ∀ k, k < 16 → s.v k < 256
  memory_lt : ∀ k, k < MEMORY_SIZE → s.memory k < 256
  display_lt : ∀ k, k < DISPLAY_WIDTH * DISPLAY_HEIGHT / 8 → s.display k < 256
  pc_lt : s.pc < 65536
  i_lt : s.i < 65536
  stack_lt : ∀ k, k < STACK_MAX → s.stack k < 65536
  stack_top_lt : s.stack_top < 256
  key_dest_lt : s.key_dest < 256
  delay_lt : s.delay_timer < 256
  sound_lt : s.sound_timer < 256

/-- Pixel `(col, row)` of the packed framebuffer: bit `7 - col mod 8` of byte
`row * 8 + col / 8`. -/
def pixel (display : Nat → Nat) (col row : Nat) : Bool :=
  (display (row * 8 + col / 8)).testBit (7 - col % 8)

/-- A machine right after loading `program_data`, with the index register, the
registers and the display then set to the given contents: the shape of the
concrete states the theorems below are instantiated at. -/
def loaded_with (program_data : List Nat) (i : Nat) (v display : Nat → Nat) : Vm :=
  { prepare_program program_data zeroed with i := i, v := v, display := display }

/-- Specification helper: the sprite column that lands on display column `col` when the
sprite is drawn at column `x`, that is the `c < 64` with `(x + c) % 64 = col`. -/
def sprite_col (x col : Nat) : Nat := (col + 64 - x) % 64

/-- Specification helper: the sprite row that lands on display row `row` when the sprite
is drawn at row `y`, that is the `r < 32` with `(y + r) % 32 = row`. -/
def sprite_line (y row : Nat) : Nat := (row + 32 - y) % 32

/-- Specification helper: the four ways the execution of one instruction, started after
the fetch in `s` (with `pc` already advanced), can end in `t`: a fatal `STOP`, no effect at
all, the key wait of `fx0a`, or an ordinary instruction, which builds `u` from `s` without
touching state, speed, budget, timer accumulator, `key_dest` or keys and then charges its
cost `c` with `DELAY`. -/
def step_shape (s t : Vm) : Prop :=
  t = STOP s ∨ t = s ∨
  (∃ n1, n1 < 16 ∧
    t = { run_timers s.micros { s with key_dest := n1, state := vm_state.VM_WAIT_FOR_KEY } with
      micros := 0 }) ∨
  (∃ (c : Int) (u : Vm), 0 < c ∧ t = DELAY c u ∧ u.state = s.state ∧
    u.speed_up = s.speed_up ∧ u.micros = s.micros ∧ u.timer_micros = s.timer_micros ∧
    u.key_dest = s.key_dest ∧ u.keys = s.keys ∧
    (s.stack_top ≤ STACK_MAX → u.stack_top ≤ STACK_MAX))

/-- The invariant of the machine: the type ranges, `stack_top ≤ 16`, `key_dest < 16`, the
speed multiplier within `0..7`, and the timer accumulator at most one period. -/
structure Vm.inv (s : Vm) : Prop where
  wf : s.wf
  stack_top_le : s.stack_top ≤ STACK_MAX
  key_dest_lt : s.key_dest < 16
  speed_up_nonneg : 0 ≤ s.speed_up
  speed_up_le : s.speed_up ≤ 7
  timer_micros_le : s.timer_micros ≤ 16667

/-- The machine states reachable from a load: a successful `prepare_program` (from any
prior state), followed by any number of frames (of non-negative duration), events and
further calls of `prepare_program` (accepted or rejected). Frames compute with exact
integers, so every state the C program reaches without `int` overflow is among them. -/
inductive reachable : Vm → Prop where
  | by_load (program_data : List Nat) (s : Vm) :
      program_data.length ≤ MEMORY_SIZE - PROGRAM_OFFSET → (∀ b ∈ program_data, b < 256) →
      reachable (prepare_program program_data s)
  | by_reload (program_data : List Nat) (s : Vm) :
      reachable s → (∀ b ∈ program_data, b < 256) →
      reachable (prepare_program program_data s)
  | by_frame (elapsed : Int) (rnd : Nat → Nat) (fuel : Nat) (s t : Vm) :
      reachable s → 0 ≤ elapsed → frame elapsed rnd fuel s = some t → reachable t
  | by_event (e : sapp_event) (s t : Vm) :
      reachable s → event e s = some t → reachable t

/-- The values of the C type `int` (32 bits). -/
def int_range (z : Int) : Prop := -2147483648 ≤ z ∧ z ≤ 2147483647

instance int_range_decidable (z : Int) : Decidable (int_range z) :=
  inferInstanceAs (Decidable (-2147483648 ≤ z ∧ z ≤ 2147483647))

/-- No `int` computation of `run_timers(micros)` in `s` overflows: the argument and the
accumulator are `int` values, and so are the difference `timer_micros - micros` and, when
the call ticks, the re-armed accumulator. Under this condition `run_timers` computes what
the C function computes. -/
def run_timers_ok (micros : Int) (s : Vm) : Prop :=
  int_range micros ∧ int_range s.timer_micros ∧ int_range (s.timer_micros - micros) ∧
  (s.timer_micros - micros ≤ 0 → int_range (s.timer_micros - micros + 16667))

instance run_timers_ok_decidable (micros : Int) (s : Vm) : Decidable (run_timers_ok micros s) :=
  inferInstanceAs (Decidable (int_range micros ∧ int_range s.timer_micros ∧
    int_range (s.timer_micros - micros) ∧
    (s.timer_micros - micros ≤ 0 → int_range (s.timer_micros - micros + 16667))))

/-- No `int` computation of the instruction executed in `s` overflows. Budget and
accumulator are `int` values; an instruction is executed with a positive budget and
charges at most 22734 microseconds (the `DELAY(22734)` of `dxyn`), and `fx0a` charges
the whole budget (`run_timers(vm.micros)`), so it is enough that the accumulator stays
an `int` when 22734 and when the budget is subtracted. -/
def step_ok (s : Vm) : Prop :=
  int_range s.micros ∧ int_range s.timer_micros ∧ int_range (s.timer_micros - 22734) ∧
  int_range (s.timer_micros - s.micros)

instance step_ok_decidable (s : Vm) : Decidable (step_ok s) :=
  inferInstanceAs (Decidable (int_range s.micros ∧ int_range s.timer_micros ∧
    int_range (s.timer_micros - 22734) ∧ int_range (s.timer_micros - s.micros)))

/-- The instruction word at `pc` is `fx15` or `fx18`, the two instructions that write a
timer (`vm.delay_timer = vm.v[n1]`, `vm.sound_timer = vm.v[n1]`). -/
def writes_timer (s : Vm) : Prop :=
  fetch_n0 s = 0xf ∧
  (nn (fetch_n2 s) (fetch_n3 s) = 0x15 ∨ nn (fetch_n2 s) (fetch_n3 s) = 0x18)

instance writes_timer_decidable (s : Vm) : Decidable (writes_timer s) :=
  inferInstanceAs (Decidable (fetch_n0 s = 0xf ∧
    (nn (fetch_n2 s) (fetch_n3 s) = 0x15 ∨ nn (fetch_n2 s) (fetch_n3 s) = 0x18)))

/-- Specification helper: `p` holds of every state in which the loop of `run_vm`, run as
in `run_vm_loop`, executes an instruction. -/
def run_vm_loop_all (p : Vm → Bool) (rnd : Nat → Nat) : Nat → Nat → Vm → Bool
  | 0, _, _ => true
  | fuel + 1, k, s =>
    if 0 < s.micros then
      p s && match run_vm_step (rnd k) s with
        | some t => run_vm_loop_all p rnd fuel (k + 1) t
        | none => true
    else true

/-- Specification helper for the timer cadence: in the frame of `elapsed` microseconds
started in `s`, no instruction writes a timer and no `int` computation overflows, neither
in `frame` and `run_vm` (the product `elapsed * (speed_up + 1)` and the new budget) nor in
any executed instruction nor in the `run_timers` call of the key wait. -/
def frame_quiet (elapsed : Int) (rnd : Nat → Nat) (fuel : Nat) (s : Vm) : Prop :=
  int_range elapsed ∧ int_range (s.speed_up + 1) ∧ int_range (elapsed * (s.speed_up + 1)) ∧
  (s.state = vm_state.VM_RUN →
    int_range s.micros ∧ int_range (s.micros + elapsed * (s.speed_up + 1)) ∧
    run_vm_loop_all (fun u => decide (¬ writes_timer u ∧ step_ok u)) rnd fuel 0
      { s with micros := s.micros + elapsed * (s.speed_up + 1) } = true) ∧
  (s.state = vm_state.VM_WAIT_FOR_KEY → run_timers_ok (elapsed * (s.speed_up + 1)) s)

instance frame_quiet_decidable (elapsed : Int) (rnd : Nat → Nat) (fuel : Nat) (s : Vm) :
    Decidable (frame_quiet elapsed rnd fuel s) :=
  inferInstanceAs (Decidable (int_range elapsed ∧ int_range (s.speed_up + 1) ∧
    int_range (elapsed * (s.speed_up + 1)) ∧
    (s.state = vm_state.VM_RUN →
      int_range s.micros ∧ int_range (s.micros + elapsed * (s.speed_up + 1)) ∧
      run_vm_loop_all (fun u => decide (¬ writes_timer u ∧ step_ok u)) rnd fuel 0
        { s with micros := s.micros + elapsed * (s.speed_up + 1) } = true) ∧
    (s.state = vm_state.VM_WAIT_FOR_KEY → run_timers_ok (elapsed * (s.speed_up + 1)) s)))

/-! ## The range invariant -/

theorem getD_lt_of_forall (l : List Nat) (h : ∀ b ∈ l, b < 256) (k : Nat) : l.getD k 0 < 256 := by
  by_cases hk : k < l.length
  · rw [List.getD_eq_getElem l 0 hk]
    exact h _ (List.getElem_mem _)
  · rw [List.getD_eq_default l 0 (by omega)]
    decide

theorem zeroed_wf : zeroed.wf :=
  have z : (0 : Nat) < 256 := by decide
  have w : (0 : Nat) < 65536 := by decide
  ⟨fun _ _ => z, fun _ _ => z, fun _ _ => z, w, w, fun _ _ => w, z, z, z, z⟩

theorem prepare_program_wf (program_data : List Nat) (s : Vm) (hs : s.wf)
    (hp : ∀ b ∈ program_data, b < 256) : (prepare_program program_data s).wf := by
  by_cases h : program_data.length > MEMORY_SIZE - PROGRAM_OFFSET
  · simp only [prepare_program, if_pos h]
    exact ⟨hs.v_lt, hs.memory_lt, hs.display_lt, hs.pc_lt, hs.i_lt, hs.stack_lt,
      hs.stack_top_lt, hs.key_dest_lt, hs.delay_lt, hs.sound_lt⟩
  · simp only [prepare_program, if_neg h]
    have z : (0 : Nat) < 256 := by decide
    have w : (0 : Nat) < 65536 := by decide
    have wpc : PROGRAM_OFFSET < 65536 := by decide
    refine ⟨fun _ _ => z, ?_, fun _ _ => z, wpc, w, fun _ _ => w, z, z, z, z⟩
    intro k _
    simp only [memcpy]
    split_ifs
    · exact getD_lt_of_forall _ hp _
    · exact getD_lt_of_forall _ (by decide) _
    · exact z

theorem loaded_with_wf (program_data : List Nat) (i : Nat) (v display : Nat → Nat)
    (hp : ∀ b ∈ program_data, b < 256) (hi : i < 65536) (hv : ∀ k, k < 16 → v k < 256)
    (hd : ∀ k, k < DISPLAY_WIDTH * DISPLAY_HEIGHT / 8 → display k < 256) :
    (loaded_with program_data i v display).wf := by
  have h := prepare_program_wf program_data zeroed zeroed_wf hp
  exact ⟨hv, h.memory_lt, hd, h.pc_lt, hi, h.stack_lt, h.stack_top_lt, h.key_dest_lt,
    h.delay_lt, h.sound_lt⟩

/-! ## Loading a program -/

/-- Claim C1: `prepare_program` accepts a program iff its size is at most
`4096 - 0x200 = 3584` bytes. From every prior state (RUNNING included) the state
afterwards is RUNNING when the size is at most 3584, and otherwise the load is
rejected and the state afterwards is INIT, which is not RUNNING. -/
theorem prepare_program_accepts_iff (program_data : List Nat) (s : Vm) :
    MEMORY_SIZE - PROGRAM_OFFSET = 3584 ∧
    ((prepare_program program_data s).state = vm_state.VM_RUN ↔ program_data.length ≤ 3584) ∧
    ((prepare_program program_data s).state = vm_state.VM_INIT ↔ 3585 ≤ program_data.length) := by
  refine ⟨by decide, ?_, ?_⟩
  · by_cases h : program_data.length > MEMORY_SIZE - PROGRAM_OFFSET
    · simp only [prepare_program, if_pos h]
      simp [MEMORY_SIZE, PROGRAM_OFFSET] at h
      simp; omega
    · simp only [prepare_program, if_neg h]
      simp [MEMORY_SIZE, PROGRAM_OFFSET] at h
      simp; omega
  · by_cases h : program_data.length > MEMORY_SIZE - PROGRAM_OFFSET
    · simp only [prepare_program, if_pos h]
      simp [MEMORY_SIZE, PROGRAM_OFFSET] at h
      simp; omega
    · simp only [prepare_program, if_neg h]
      simp [MEMORY_SIZE, PROGRAM_OFFSET] at h
      simp; omega

/-- Claim C2: after a successful `prepare_program` of a program of length at most
3584, from any prior state: the 80 bytes at `0x50` are the font table, the bytes
at `0x200` are the program, every other memory byte is 0, `pc = 0x200`, the
state is RUNNING, and registers, index register, stack, `stack_top`, timers,
keys, display, cycle budget, timer accumulator, speed multiplier and `key_dest`
are all 0. -/
theorem prepare_program_post (program_data : List Nat) (s : Vm)
    (hsize : program_data.length ≤ 3584) :
    (∀ k, k < 80 → (prepare_program program_data s).memory (0x50 + k) = font_data.getD k 0) ∧
    (∀ k, k < program_data.length →
      (prepare_program program_data s).memory (0x200 + k) = program_data.getD k 0) ∧
    (∀ a, ¬ (0x50 ≤ a ∧ a < 0x50 + 80) → ¬ (0x200 ≤ a ∧ a < 0x200 + program_data.length) →
      (prepare_program program_data s).memory a = 0) ∧
    (prepare_program program_data s).pc = 0x200 ∧
    (prepare_program program_data s).state = vm_state.VM_RUN ∧
    (∀ k, (prepare_program program_data s).v k = 0) ∧
    (prepare_program program_data s).i = 0 ∧
    (∀ k, (prepare_program program_data s).stack k = 0) ∧
    (prepare_program program_data s).stack_top = 0 ∧
    (prepare_program program_data s).delay_timer = 0 ∧
    (prepare_program program_data s).sound_timer = 0 ∧
    (∀ k, (prepare_program program_data s).keys k = false) ∧
    (∀ k, (prepare_program program_data s).display k = 0) ∧
    (prepare_program program_data s).micros = 0 ∧
    (prepare_program program_data s).timer_micros = 0 ∧
    (prepare_program program_data s).speed_up = 0 ∧
    (prepare_program program_data s).key_dest = 0 := by
  have h : ¬ program_data.length > MEMORY_SIZE - PROGRAM_OFFSET := by
    simp [MEMORY_SIZE, PROGRAM_OFFSET]; omega
  have hfont : font_data.length = 80 := by decide
  have e : prepare_program program_data s =
      { zeroed with
        memory := memcpy (memcpy zeroed.memory FONT_OFFSET font_data font_data.length)
          PROGRAM_OFFSET program_data program_data.length
        pc := PROGRAM_OFFSET
        state := vm_state.VM_RUN } := by
    simp only [prepare_program, if_neg h]
  rw [e]
  refine ⟨?_, ?_, ?_, rfl, rfl, fun _ => rfl, rfl, fun _ => rfl, rfl, rfl, rfl, fun _ => rfl,
    fun _ => rfl, rfl, rfl, rfl, rfl⟩
  · intro k hk
    have h1 : ¬ (PROGRAM_OFFSET ≤ 0x50 + k ∧ 0x50 + k < PROGRAM_OFFSET + program_data.length) := by
      simp [PROGRAM_OFFSET]; omega
    have h2 : FONT_OFFSET ≤ 0x50 + k ∧ 0x50 + k < FONT_OFFSET + font_data.length := by
      rw [hfont]; simp [FONT_OFFSET]; omega
    simp only [memcpy, if_neg h1, if_pos h2]
    simp [FONT_OFFSET]
  · intro k hk
    have h1 : PROGRAM_OFFSET ≤ 0x200 + k ∧ 0x200 + k < PROGRAM_OFFSET + program_data.length := by
      simp [PROGRAM_OFFSET]; omega
    simp only [memcpy, if_pos h1]
    simp [PROGRAM_OFFSET]
  · intro a ha1 ha2
    have h1 : ¬ (PROGRAM_OFFSET ≤ a ∧ a < PROGRAM_OFFSET + program_data.length) := by
      simpa [PROGRAM_OFFSET] using ha2
    have h2 : ¬ (FONT_OFFSET ≤ a ∧ a < FONT_OFFSET + font_data.length) := by
      rw [hfont]; simpa [FONT_OFFSET] using ha1
    simp only [memcpy, if_neg h1, if_neg h2]
    rfl

/-- Witness for `prepare_program_post`: the two-byte program `12 00` loaded over
the zeroed machine. -/
theorem prepare_program_post_witness :
    ([0x12, 0x00] : List Nat).length ≤ 3584 ∧
    (prepare_program [0x12, 0x00] zeroed).memory (0x200 + 0) = 0x12 ∧
    (prepare_program [0x12, 0x00] zeroed).memory (0x50 + 79) = 0x80 ∧
    (prepare_program [0x12, 0x00] zeroed).pc = 0x200 :=
  ⟨by decide,
   (prepare_program_post [0x12, 0x00] zeroed (by decide)).2.1 0 (by decide),
   (prepare_program_post [0x12, 0x00] zeroed (by decide)).1 79 (by decide),
   (prepare_program_post [0x12, 0x00] zeroed (by decide)).2.2.2.1⟩

/-! ## Frame lemmas: what `run_timers` and `DELAY` leave alone -/

theorem run_timers_v (t : Int) (s : Vm) : (run_timers t s).v = s.v := by
  simp only [run_timers]; split_ifs <;> rfl

theorem run_timers_display (t : Int) (s : Vm) : (run_timers t s).display = s.display := by
  simp only [run_timers]; split_ifs <;> rfl

theorem run_timers_memory (t : Int) (s : Vm) : (run_timers t s).memory = s.memory := by
  simp only [run_timers]; split_ifs <;> rfl

theorem run_timers_state (t : Int) (s : Vm) : (run_timers t s).state = s.state := by
  simp only [run_timers]; split_ifs <;> rfl

theorem run_timers_pc (t : Int) (s : Vm) : (run_timers t s).pc = s.pc := by
  simp only [run_timers]; split_ifs <;> rfl

theorem run_timers_i (t : Int) (s : Vm) : (run_timers t s).i = s.i := by
  simp only [run_timers]; split_ifs <;> rfl

theorem run_timers_micros (t : Int) (s : Vm) : (run_timers t s).micros = s.micros := by
  simp only [run_timers]; split_ifs <;> rfl

theorem DELAY_v (t : Int) (s : Vm) : (DELAY t s).v = s.v := by
  simp [DELAY, run_timers_v]

theorem DELAY_display (t : Int) (s : Vm) : (DELAY t s).display = s.display := by
  simp [DELAY, run_timers_display]

theorem DELAY_memory (t : Int) (s : Vm) : (DELAY t s).memory = s.memory := by
  simp [DELAY, run_timers_memory]

theorem DELAY_state (t : Int) (s : Vm) : (DELAY t s).state = s.state := by
  simp [DELAY, run_timers_state]

theorem DELAY_pc (t : Int) (s : Vm) : (DELAY t s).pc = s.pc := by
  simp [DELAY, run_timers_pc]

theorem DELAY_i (t : Int) (s : Vm) : (DELAY t s).i = s.i := by
  simp [DELAY, run_timers_i]

theorem DELAY_micros (t : Int) (s : Vm) : (DELAY t s).micros = s.micros - t := by
  simp [DELAY, run_timers_micros]

theorem fetch_n1_lt (s : Vm) : fetch_n1 s < 16 := by
  have h : s.memory s.pc &&& 0xf ≤ 0xf := Nat.and_le_right
  simp only [fetch_n1, u8]; omega

theorem fetch_n3_lt (s : Vm) : fetch_n3 s < 16 := by
  have h : s.memory (s.pc + 1) &&& 0xf ≤ 0xf := Nat.and_le_right
  simp only [fetch_n3, u8]; omega

theorem fetch_n2_lt (s : Vm) (hwf : s.wf) (hpc : s.pc + 1 < MEMORY_SIZE) : fetch_n2 s < 16 := by
  have h := hwf.memory_lt (s.pc + 1) hpc
  simp only [fetch_n2, u8, Nat.shiftRight_eq_div_pow]; omega

theorem fetch_n0_lt (s : Vm) (hwf : s.wf) (hpc : s.pc + 1 < MEMORY_SIZE) : fetch_n0 s < 16 := by
  have h := hwf.memory_lt s.pc (by omega)
  simp only [fetch_n0, u8, Nat.shiftRight_eq_div_pow]; omega

theorem run_vm_step_8 (r : Nat) (s : Vm) (hpc : s.pc + 1 < MEMORY_SIZE) (h0 : fetch_n0 s = 8) :
    run_vm_step r s = some (run_vm_case_8 (fetch_n1 s) (fetch_n2 s) (fetch_n3 s)
      { s with pc := u16 (s.pc + 2) }) := by
  simp only [run_vm_step, if_pos hpc, h0, run_vm_switch]

/-! ## Decoding -/

/-- Claim C3 (evaluation at the failing input): the word `00e1` is not a defined
opcode, yet executing it in a RUNNING machine with positive budget leaves the
state RUNNING; only `pc` moves on, and no time is charged. -/
theorem undefined_00e1_keeps_running :
    (run_vm_step 0 { prepare_program [0x00, 0xe1] zeroed with micros := 16667 }).map
      (fun t => (t.state, t.pc, t.micros)) = some (vm_state.VM_RUN, 0x202, 16667) := by
  decide

/-! ## Sprite drawing -/

theorem u8_testBit (a j : Nat) : (u8 a).testBit j = (decide (j < 8) && a.testBit j) := by
  have h : u8 a = a % 2 ^ 8 := rfl
  rw [h, Nat.testBit_mod_two_pow]

theorem testBit_byte_high (m k : Nat) (hm : m < 256) (hk : 8 ≤ k) : m.testBit k = false := by
  apply Nat.testBit_lt_two_pow
  calc m < 2 ^ 8 := hm
    _ ≤ 2 ^ k := Nat.pow_le_pow_right (by decide) hk

theorem mask_testBit (m sft j : Nat) (hm : m < 256) (hj : j < 8) :
    (u8 (m >>> sft)).testBit j = (decide (sft + j < 8) && m.testBit (sft + j)) := by
  rw [u8_testBit, Nat.testBit_shiftRight]
  by_cases h : sft + j < 8
  · simp [h, hj]
  · simp [h, testBit_byte_high m (sft + j) hm (by omega)]

theorem mask2_testBit (m sft j : Nat) (hj : j < 8) :
    (u8 (m <<< (8 - sft))).testBit j = (decide (8 - sft ≤ j) && m.testBit (j - (8 - sft))) := by
  rw [u8_testBit, Nat.testBit_shiftLeft]
  simp [hj]

theorem xor_u8_testBit (a b j : Nat) (hj : j < 8) :
    (u8 (a ^^^ b)).testBit j = (a.testBit j ^^ b.testBit j) := by
  rw [u8_testBit, Nat.testBit_xor]
  simp [hj]

theorem sprite_row_memory (x y yy : Nat) (s : Vm) : (sprite_row x y yy s).memory = s.memory := by
  simp only [sprite_row]; split_ifs <;> rfl

theorem sprite_row_i (x y yy : Nat) (s : Vm) : (sprite_row x y yy s).i = s.i := by
  simp only [sprite_row]; split_ifs <;> rfl

/-- One row of the sprite XORs bit `7 - c` of its byte into the pixel at column
`(x + c) mod 64` of row `(y + yy) mod 32`, for `c < 8`, and touches no other pixel. -/
theorem sprite_row_pixel (x y yy col row : Nat) (s : Vm) (hx : x < 64)
    (hcol : col < 64) (hm : s.memory (s.i + yy) < 256) :
    pixel (sprite_row x y yy s).display col row =
      if row = (y + yy) % 32 ∧ sprite_col x col < 8 then
        (pixel s.display col row ^^ (s.memory (s.i + yy)).testBit (7 - sprite_col x col))
      else pixel s.display col row := by
  have h7 : x &&& 7 = x % 8 := Nat.and_pow_two_sub_one_eq_mod x 3
  have h31 : (y + yy) &&& 31 = (y + yy) % 32 := Nat.and_pow_two_sub_one_eq_mod (y + yy) 5
  have hj : 7 - col % 8 < 8 := by omega
  have hrow : ∀ k, k < 32 → ∀ a b, a < 8 → b < 8 → (row * 8 + a = k * 8 + b ↔ row = k ∧ a = b) := by
    intro k _ a b _ _; omega
  have hYr : (y + yy) % 32 < 32 := Nat.mod_lt _ (by decide)
  have hdest : ((y + yy) % 32 * 64 + x) / 8 = (y + yy) % 32 * 8 + x / 8 := by omega
  simp only [sprite_row, h7, h31, DISPLAY_WIDTH, pixel, sprite_col, hdest]
  generalize hYdef : (y + yy) % 32 = Yr at *
  generalize hmdef : s.memory (s.i + yy) = m at *
  by_cases hs : x % 8 = 0
  · simp only [hs, ne_eq, not_true_eq_false, if_false, store]
    by_cases hk : row * 8 + col / 8 = Yr * 8 + x / 8
    · rw [if_pos hk, xor_u8_testBit _ _ _ hj, mask_testBit _ _ _ hm hj]
      have h1 : row = Yr ∧ col / 8 = x / 8 := by omega
      have h2 : (col + 64 - x) % 64 < 8 := by omega
      have h3 : 0 + (7 - col % 8) = 7 - (col + 64 - x) % 64 := by omega
      have h4 : 0 + (7 - col % 8) < 8 := by omega
      rw [if_pos ⟨h1.1, h2⟩, h3]
      rw [h3] at h4
      simp [h4, hk]
    · rw [if_neg hk]
      have h2 : ¬ (row = Yr ∧ (col + 64 - x) % 64 < 8) := by omega
      rw [if_neg h2]
  · have hd2 : (if x < 56 then Yr * 8 + x / 8 + 1 else Yr * 8 + x / 8 - 7) =
        Yr * 8 + (x / 8 + 1) % 8 := by
      split_ifs <;> omega
    simp only [hs, ne_eq, not_false_eq_true, if_true, store, hd2]
    have hne : ¬ (Yr * 8 + (x / 8 + 1) % 8 = Yr * 8 + x / 8) := by omega
    simp only [if_neg hne]
    by_cases hk2 : row * 8 + col / 8 = Yr * 8 + (x / 8 + 1) % 8
    · rw [if_pos hk2, xor_u8_testBit _ _ _ hj, mask2_testBit _ _ _ hj]
      have h1 : row = Yr := by omega
      by_cases hb : 8 - x % 8 ≤ 7 - col % 8
      · have h2 : (col + 64 - x) % 64 < 8 := by omega
        have h3 : 7 - col % 8 - (8 - x % 8) = 7 - (col + 64 - x) % 64 := by omega
        rw [if_pos ⟨h1, h2⟩, h3]
        simp [hb, hk2]
      · have h2 : ¬ (row = Yr ∧ (col + 64 - x) % 64 < 8) := by omega
        rw [if_neg h2]
        simp [hb, hk2]
    · rw [if_neg hk2]
      by_cases hk : row * 8 + col / 8 = Yr * 8 + x / 8
      · rw [if_pos hk, xor_u8_testBit _ _ _ hj, mask_testBit _ _ _ hm hj]
        have h1 : row = Yr := by omega
        by_cases hb : x % 8 + (7 - col % 8) < 8
        · have h2 : (col + 64 - x) % 64 < 8 := by omega
          have h3 : x % 8 + (7 - col % 8) = 7 - (col + 64 - x) % 64 := by omega
          rw [if_pos ⟨h1, h2⟩]
          rw [h3] at hb ⊢
          simp [hb, hk]
        · have h2 : ¬ (row = Yr ∧ (col + 64 - x) % 64 < 8) := by omega
          rw [if_neg h2]
          simp [hb, hk]
      · rw [if_neg hk]
        have h2 : ¬ (row = Yr ∧ (col + 64 - x) % 64 < 8) := by omega
        rw [if_neg h2]


theorem mask_at_col (x col m : Nat) (hx : x < 64) (hcol : col < 64) (hm : m < 256)
    (h : col / 8 = x / 8) :
    (u8 (m >>> (x % 8))).testBit (7 - col % 8) =
      (decide (sprite_col x col < 8) && m.testBit (7 - sprite_col x col)) := by
  rw [mask_testBit _ _ _ hm (by omega)]
  simp only [sprite_col]
  by_cases hb : x % 8 + (7 - col % 8) < 8
  · have h2 : (col + 64 - x) % 64 < 8 := by omega
    have h3 : x % 8 + (7 - col % 8) = 7 - (col + 64 - x) % 64 := by omega
    rw [h3] at hb ⊢
    simp [hb, h2]
  · have h2 : ¬ (col + 64 - x) % 64 < 8 := by omega
    simp [hb, h2]

theorem mask2_at_col (x col m : Nat) (hx : x < 64) (hcol : col < 64)
    (h : col / 8 = (x / 8 + 1) % 8) :
    (u8 (m <<< (8 - x % 8))).testBit (7 - col % 8) =
      (decide (sprite_col x col < 8) && m.testBit (7 - sprite_col x col)) := by
  rw [mask2_testBit _ _ _ (by omega)]
  simp only [sprite_col]
  by_cases hb : 8 - x % 8 ≤ 7 - col % 8
  · have h2 : (col + 64 - x) % 64 < 8 := by omega
    have h3 : 7 - col % 8 - (8 - x % 8) = 7 - (col + 64 - x) % 64 := by omega
    rw [h3]
    simp [hb, h2]
  · have h2 : ¬ (col + 64 - x) % 64 < 8 := by omega
    simp [hb, h2]

theorem u8_ne_zero_iff (a : Nat) : u8 a ≠ 0 ↔ ∃ j, j < 8 ∧ a.testBit j = true := by
  constructor
  · intro h
    obtain ⟨j, hj⟩ := Nat.ne_zero_implies_bit_true h
    rw [u8_testBit] at hj
    simp at hj
    exact ⟨j, hj.1, hj.2⟩
  · rintro ⟨j, hj, hb⟩ h0
    have : (u8 a).testBit j = true := by rw [u8_testBit]; simp [hj, hb]
    rw [h0] at this
    simp at this

theorem byte_ne_zero_iff (a : Nat) (ha : a < 256) : a ≠ 0 ↔ ∃ j, j < 8 ∧ a.testBit j = true := by
  have h : u8 a = a := Nat.mod_eq_of_lt ha
  rw [← u8_ne_zero_iff, h]


theorem sprite_row_v15 (x y yy : Nat) (s : Vm) (hx : x < 64) :
    (sprite_row x y yy s).v 0xf =
      if x % 8 = 0 then
        u8 (s.v 0xf ||| (s.display ((y + yy) % 32 * 8 + x / 8) &&&
          u8 (s.memory (s.i + yy) >>> (x % 8))))
      else
        u8 (u8 (s.v 0xf ||| (s.display ((y + yy) % 32 * 8 + x / 8) &&&
          u8 (s.memory (s.i + yy) >>> (x % 8)))) |||
          (s.display ((y + yy) % 32 * 8 + (x / 8 + 1) % 8) &&&
            u8 (s.memory (s.i + yy) <<< (8 - x % 8)))) := by
  have h7 : x &&& 7 = x % 8 := Nat.and_pow_two_sub_one_eq_mod x 3
  have h31 : (y + yy) &&& 31 = (y + yy) % 32 := Nat.and_pow_two_sub_one_eq_mod (y + yy) 5
  have hdest : ((y + yy) % 32 * 64 + x) / 8 = (y + yy) % 32 * 8 + x / 8 := by omega
  simp only [sprite_row, h7, h31, DISPLAY_WIDTH, hdest]
  by_cases hs : x % 8 = 0
  · simp [hs, store]
  · have hd2 : (if x < 56 then (y + yy) % 32 * 8 + x / 8 + 1 else (y + yy) % 32 * 8 + x / 8 - 7) =
        (y + yy) % 32 * 8 + (x / 8 + 1) % 8 := by
      split_ifs <;> omega
    have hne : ¬ ((y + yy) % 32 * 8 + (x / 8 + 1) % 8 = (y + yy) % 32 * 8 + x / 8) := by omega
    simp [hs, store, hd2, hne]


/-- After one row the collision accumulator is nonzero iff it was before or a set
bit of the row met a set pixel. -/
theorem sprite_row_flag (x y yy : Nat) (s : Vm) (hx : x < 64)
    (hm : s.memory (s.i + yy) < 256) (hvf : s.v 0xf < 256) :
    (sprite_row x y yy s).v 0xf ≠ 0 ↔
      (s.v 0xf ≠ 0 ∨ ∃ col, col < 64 ∧ sprite_col x col < 8 ∧
        (s.memory (s.i + yy)).testBit (7 - sprite_col x col) = true ∧
        pixel s.display col ((y + yy) % 32) = true) := by
  rw [sprite_row_v15 x y yy s hx, byte_ne_zero_iff _ hvf]
  generalize hYdef : (y + yy) % 32 = Yr
  generalize hmdef : s.memory (s.i + yy) = m at *
  by_cases hs : x % 8 = 0
  · rw [if_pos hs, u8_ne_zero_iff]
    constructor
    · rintro ⟨j, hj, hb⟩
      rw [Nat.testBit_or, Nat.testBit_and, Bool.or_eq_true, Bool.and_eq_true] at hb
      rcases hb with hb | ⟨hb1, hb2⟩
      · exact Or.inl ⟨j, hj, hb⟩
      · right
        refine ⟨8 * (x / 8) + (7 - j), by omega, ?_⟩
        have e1 : (8 * (x / 8) + (7 - j)) / 8 = x / 8 := by omega
        have e2 : 7 - (8 * (x / 8) + (7 - j)) % 8 = j := by omega
        have hmask := mask_at_col x (8 * (x / 8) + (7 - j)) m hx (by omega) hm e1
        rw [e2, hb2] at hmask
        simp only [pixel, e1, e2]
        simp at hmask
        exact ⟨hmask.1, hmask.2, hb1⟩
    · rintro (⟨j, hj, hb⟩ | ⟨col, hcol, hc, hbit, hpix⟩)
      · exact ⟨j, hj, by simp [hb]⟩
      · have e1 : col / 8 = x / 8 := by simp only [sprite_col] at hc; omega
        have hmask := mask_at_col x col m hx hcol hm e1
        simp only [pixel, e1] at hpix
        refine ⟨7 - col % 8, by omega, ?_⟩
        rw [Nat.testBit_or, Nat.testBit_and, hmask, hpix]
        simp [hc, hbit]
  · rw [if_neg hs, u8_ne_zero_iff]
    constructor
    · rintro ⟨j, hj, hb⟩
      rw [Nat.testBit_or, u8_testBit, Nat.testBit_or, Nat.testBit_and, Nat.testBit_and] at hb
      simp only [Bool.or_eq_true, Bool.and_eq_true, decide_eq_true_eq] at hb
      rcases hb with ⟨_, hb | ⟨hb1, hb2⟩⟩ | ⟨hb1, hb2⟩
      · exact Or.inl ⟨j, hj, hb⟩
      · right
        refine ⟨8 * (x / 8) + (7 - j), by omega, ?_⟩
        have e1 : (8 * (x / 8) + (7 - j)) / 8 = x / 8 := by omega
        have e2 : 7 - (8 * (x / 8) + (7 - j)) % 8 = j := by omega
        have hmask := mask_at_col x (8 * (x / 8) + (7 - j)) m hx (by omega) hm e1
        rw [e2, hb2] at hmask
        simp only [pixel, e1, e2]
        simp at hmask
        exact ⟨hmask.1, hmask.2, hb1⟩
      · right
        refine ⟨8 * ((x / 8 + 1) % 8) + (7 - j), by omega, ?_⟩
        have e1 : (8 * ((x / 8 + 1) % 8) + (7 - j)) / 8 = (x / 8 + 1) % 8 := by omega
        have e2 : 7 - (8 * ((x / 8 + 1) % 8) + (7 - j)) % 8 = j := by omega
        have hmask := mask2_at_col x (8 * ((x / 8 + 1) % 8) + (7 - j)) m hx (by omega) e1
        rw [e2, hb2] at hmask
        simp only [pixel, e1, e2]
        simp at hmask
        exact ⟨hmask.1, hmask.2, hb1⟩
    · rintro (⟨j, hj, hb⟩ | ⟨col, hcol, hc, hbit, hpix⟩)
      · refine ⟨j, hj, ?_⟩
        rw [Nat.testBit_or, u8_testBit, Nat.testBit_or]
        simp [hb, hj]
      · have e1 : col / 8 = x / 8 ∨ col / 8 = (x / 8 + 1) % 8 := by
          simp only [sprite_col] at hc; omega
        refine ⟨7 - col % 8, by omega, ?_⟩
        rcases e1 with e1 | e1
        · have hmask := mask_at_col x col m hx hcol hm e1
          simp only [pixel, e1] at hpix
          rw [Nat.testBit_or, u8_testBit, Nat.testBit_or, Nat.testBit_and, hmask, hpix]
          have : 7 - col % 8 < 8 := by omega
          simp [hc, hbit, this]
        · have hmask := mask2_at_col x col m hx hcol e1
          simp only [pixel, e1] at hpix
          rw [Nat.testBit_or, Nat.testBit_and, hmask, hpix]
          simp [hc, hbit]


theorem sprite_row_frame (x y yy : Nat) (s : Vm) :
    sprite_row x y yy s =
      { s with v := (sprite_row x y yy s).v, display := (sprite_row x y yy s).display } := by
  simp only [sprite_row]; split_ifs <;> rfl

theorem sprite_row_v_other (x y yy k : Nat) (s : Vm) (hk : k ≠ 0xf) :
    (sprite_row x y yy s).v k = s.v k := by
  simp only [sprite_row]; split_ifs <;> simp [store, hk]

theorem sprite_row_v15_lt (x y yy : Nat) (s : Vm) : (sprite_row x y yy s).v 0xf < 256 := by
  simp only [sprite_row]; split_ifs <;> simp [store, u8] <;> omega

theorem sprite_row_display_high (x y yy k : Nat) (s : Vm) (hx : x < 64)
    (hk : DISPLAY_WIDTH * DISPLAY_HEIGHT / 8 ≤ k) :
    (sprite_row x y yy s).display k = s.display k := by
  have h31 : (y + yy) &&& 31 = (y + yy) % 32 := Nat.and_pow_two_sub_one_eq_mod (y + yy) 5
  simp only [DISPLAY_WIDTH, DISPLAY_HEIGHT] at hk
  have h1 : ¬ k = ((y + yy) % 32 * 64 + x) / 8 := by omega
  have h2 : ¬ k = (if x < 56 then ((y + yy) % 32 * 64 + x) / 8 + 1
      else ((y + yy) % 32 * 64 + x) / 8 - 7) := by
    split_ifs <;> omega
  simp only [sprite_row, h31, DISPLAY_WIDTH]
  by_cases hs : x &&& 7 ≠ 0
  · simp only [if_pos hs, store, if_neg h1, if_neg h2]
  · simp only [if_neg hs, store, if_neg h1]

theorem sprite_row_display_lt (x y yy k : Nat) (s : Vm) (hk : s.display k < 256) :
    (sprite_row x y yy s).display k < 256 := by
  have hu : ∀ n, u8 n < 256 := fun n => Nat.mod_lt _ (by decide)
  simp only [sprite_row]
  split_ifs <;> simp only [store] <;> split_ifs <;> first | exact hu _ | exact hk


/-- The row loop from row `a` for `rem` rows: it returns, changes only `v[0xf]` and
the display, XORs the rows `a .. a + rem - 1` of the sprite into the framebuffer and
accumulates the collisions against the framebuffer it started from. -/
theorem sprite_loop_spec (x y : Nat) (hx : x < 64) (hy : y < 32) :
    ∀ (rem a : Nat) (s : Vm), a + rem ≤ 32 → s.i + a + rem ≤ MEMORY_SIZE →
      (∀ k, k < MEMORY_SIZE → s.memory k < 256) → s.v 0xf < 256 →
      ∃ t, sprite_loop x y rem a s = some t ∧
        t = { s with v := t.v, display := t.display } ∧
        (∀ k, k ≠ 0xf → t.v k = s.v k) ∧
        t.v 0xf < 256 ∧
        (∀ col row, col < 64 → row < 32 → pixel t.display col row =
          if a ≤ sprite_line y row ∧ sprite_line y row < a + rem ∧ sprite_col x col < 8 then
            (pixel s.display col row ^^
              (s.memory (s.i + sprite_line y row)).testBit (7 - sprite_col x col))
          else pixel s.display col row) ∧
        (t.v 0xf ≠ 0 ↔ (s.v 0xf ≠ 0 ∨ ∃ col row, col < 64 ∧ row < 32 ∧
          a ≤ sprite_line y row ∧ sprite_line y row < a + rem ∧ sprite_col x col < 8 ∧
          (s.memory (s.i + sprite_line y row)).testBit (7 - sprite_col x col) = true ∧
          pixel s.display col row = true)) ∧
        (∀ k, DISPLAY_WIDTH * DISPLAY_HEIGHT / 8 ≤ k → t.display k = s.display k) ∧
        (∀ k, s.display k < 256 → t.display k < 256) := by
  intro rem
  induction rem with
  | zero =>
    intro a s _ _ _ hvf
    refine ⟨s, rfl, rfl, fun _ _ => rfl, hvf, ?_, ?_, fun _ _ => rfl, fun _ h => h⟩
    · intro col row _ _
      have : ¬ (a ≤ sprite_line y row ∧ sprite_line y row < a + 0 ∧ sprite_col x col < 8) := by
        omega
      rw [if_neg this]
    · constructor
      · intro h; exact Or.inl h
      · rintro (h | ⟨col, row, _, _, h1, h2, _⟩)
        · exact h
        · omega
  | succ rem ih =>
    intro a s ha hi hmem hvf
    have hin : s.i + a < MEMORY_SIZE := by omega
    have hma : s.memory (s.i + a) < 256 := hmem _ hin
    have hfr := sprite_row_frame x y a s
    have hmem1 : (sprite_row x y a s).memory = s.memory := sprite_row_memory x y a s
    have hi1 : (sprite_row x y a s).i = s.i := sprite_row_i x y a s
    obtain ⟨t, ht, hframe, hvo, hv15, hpix, hflag, hhigh, hlt⟩ :=
      ih (a + 1) (sprite_row x y a s) (by omega) (by rw [hi1]; omega)
        (by rw [hmem1]; exact hmem) (sprite_row_v15_lt x y a s)
    have hline : ∀ row, row < 32 → (row = (y + a) % 32 ↔ sprite_line y row = a) := by
      intro row hrow; simp only [sprite_line]; omega
    refine ⟨t, ?_, ?_, ?_, hv15, ?_, ?_, ?_, ?_⟩
    · simp only [sprite_loop, if_pos hin]; exact ht
    · rw [hframe, hfr]
    · intro k hk
      rw [hvo k hk, sprite_row_v_other x y a k s hk]
    · intro col row hcol hrow
      rw [hpix col row hcol hrow, sprite_row_pixel x y a col row s hx hcol hma, hmem1, hi1]
      by_cases hc : sprite_col x col < 8
      · by_cases h1 : sprite_line y row = a
        · have e1 : row = (y + a) % 32 := (hline row hrow).2 h1
          have e2 : ¬ (a + 1 ≤ sprite_line y row ∧ sprite_line y row < a + 1 + rem ∧
              sprite_col x col < 8) := by omega
          have e3 : a ≤ sprite_line y row ∧ sprite_line y row < a + (rem + 1) ∧
              sprite_col x col < 8 := ⟨by omega, by omega, hc⟩
          rw [if_neg e2, if_pos ⟨e1, hc⟩, if_pos e3, h1]
        · have e1 : ¬ (row = (y + a) % 32 ∧ sprite_col x col < 8) := by
            intro h; exact h1 ((hline row hrow).1 h.1)
          rw [if_neg e1]
          by_cases h2 : a + 1 ≤ sprite_line y row ∧ sprite_line y row < a + 1 + rem
          · rw [if_pos ⟨h2.1, h2.2, hc⟩, if_pos ⟨by omega, by omega, hc⟩]
          · have e2 : ¬ (a + 1 ≤ sprite_line y row ∧ sprite_line y row < a + 1 + rem ∧
                sprite_col x col < 8) := fun h => h2 ⟨h.1, h.2.1⟩
            have e3 : ¬ (a ≤ sprite_line y row ∧ sprite_line y row < a + (rem + 1) ∧
                sprite_col x col < 8) := by omega
            rw [if_neg e2, if_neg e3]
      · have e1 : ¬ (row = (y + a) % 32 ∧ sprite_col x col < 8) := fun h => hc h.2
        have e2 : ¬ (a + 1 ≤ sprite_line y row ∧ sprite_line y row < a + 1 + rem ∧
            sprite_col x col < 8) := fun h => hc h.2.2
        have e3 : ¬ (a ≤ sprite_line y row ∧ sprite_line y row < a + (rem + 1) ∧
            sprite_col x col < 8) := fun h => hc h.2.2
        rw [if_neg e1, if_neg e2, if_neg e3]
    · rw [hflag, sprite_row_flag x y a s hx hma hvf, hmem1, hi1]
      have hla : sprite_line y ((y + a) % 32) = a := by simp only [sprite_line]; omega
      constructor
      · rintro ((h | ⟨col, hcol, hc, hbit, hp⟩) | ⟨col, row, hcol, hrow, h1, h2, hc, hbit, hp⟩)
        · exact Or.inl h
        · right
          refine ⟨col, (y + a) % 32, hcol, Nat.mod_lt _ (by decide), ?_, ?_, hc, ?_, hp⟩
          · omega
          · omega
          · rw [hla]; exact hbit
        · right
          refine ⟨col, row, hcol, hrow, by omega, by omega, hc, hbit, ?_⟩
          rw [sprite_row_pixel x y a col row s hx hcol hma] at hp
          have e1 : ¬ (row = (y + a) % 32 ∧ sprite_col x col < 8) := by
            intro h; have := (hline row hrow).1 h.1; omega
          rw [if_neg e1] at hp
          exact hp
      · rintro (h | ⟨col, row, hcol, hrow, h1, h2, hc, hbit, hp⟩)
        · exact Or.inl (Or.inl h)
        · by_cases h3 : sprite_line y row = a
          · left; right
            have e1 : row = (y + a) % 32 := (hline row hrow).2 h3
            rw [h3] at hbit
            rw [e1] at hp
            exact ⟨col, hcol, hc, hbit, hp⟩
          · right
            refine ⟨col, row, hcol, hrow, by omega, by omega, hc, hbit, ?_⟩
            rw [sprite_row_pixel x y a col row s hx hcol hma]
            have e1 : ¬ (row = (y + a) % 32 ∧ sprite_col x col < 8) := by
              intro h; exact h3 ((hline row hrow).1 h.1)
            rw [if_neg e1]
            exact hp
    · intro k hk
      rw [hhigh k hk, sprite_row_display_high x y a k s hx hk]
    · intro k hk
      exact hlt k (sprite_row_display_lt x y a k s hk)


theorem run_vm_step_d (r : Nat) (s : Vm) (hpc : s.pc + 1 < MEMORY_SIZE) (h0 : fetch_n0 s = 0xd) :
    run_vm_step r s = run_vm_case_d (fetch_n1 s) (fetch_n2 s) (fetch_n3 s)
      { s with pc := u16 (s.pc + 2) } := by
  simp only [run_vm_step, if_pos hpc, h0, run_vm_switch]

/-- What `dxyn` does, in terms of display columns and rows. -/
theorem draw_spec (r : Nat) (s : Vm) (hwf : s.wf) (hpc : s.pc + 1 < MEMORY_SIZE)
    (h0 : fetch_n0 s = 0xd) (hi : s.i + fetch_n3 s ≤ MEMORY_SIZE) :
    ∃ t, run_vm_step r s = some t ∧
      t.memory = s.memory ∧ t.i = s.i ∧ t.pc = u16 (s.pc + 2) ∧ t.state = s.state ∧
      (∀ k, k ≠ 0xf → t.v k = s.v k) ∧
      (∀ col row, col < 64 → row < 32 → pixel t.display col row =
        if sprite_line (s.v (fetch_n2 s) % 32) row < fetch_n3 s ∧
            sprite_col (s.v (fetch_n1 s) % 64) col < 8 then
          (pixel s.display col row ^^
            (s.memory (s.i + sprite_line (s.v (fetch_n2 s) % 32) row)).testBit
              (7 - sprite_col (s.v (fetch_n1 s) % 64) col))
        else pixel s.display col row) ∧
      ((∃ col row, col < 64 ∧ row < 32 ∧
          sprite_line (s.v (fetch_n2 s) % 32) row < fetch_n3 s ∧
          sprite_col (s.v (fetch_n1 s) % 64) col < 8 ∧
          (s.memory (s.i + sprite_line (s.v (fetch_n2 s) % 32) row)).testBit
            (7 - sprite_col (s.v (fetch_n1 s) % 64) col) = true ∧
          pixel s.display col row = true) → t.v 0xf = 1) ∧
      ((¬ ∃ col row, col < 64 ∧ row < 32 ∧
          sprite_line (s.v (fetch_n2 s) % 32) row < fetch_n3 s ∧
          sprite_col (s.v (fetch_n1 s) % 64) col < 8 ∧
          (s.memory (s.i + sprite_line (s.v (fetch_n2 s) % 32) row)).testBit
            (7 - sprite_col (s.v (fetch_n1 s) % 64) col) = true ∧
          pixel s.display col row = true) → t.v 0xf = 0) ∧
      (∀ k, DISPLAY_WIDTH * DISPLAY_HEIGHT / 8 ≤ k → t.display k = s.display k) ∧
      (∀ k, s.display k < 256 → t.display k < 256) := by
  have hx : u8 (s.v (fetch_n1 s) &&& 63) = s.v (fetch_n1 s) % 64 := by
    have h := Nat.and_pow_two_sub_one_eq_mod (s.v (fetch_n1 s)) 6
    simp only [u8]
    have h' : s.v (fetch_n1 s) &&& 63 = s.v (fetch_n1 s) % 64 := h
    rw [h']; omega
  have hy : u8 (s.v (fetch_n2 s) &&& 31) = s.v (fetch_n2 s) % 32 := by
    have h := Nat.and_pow_two_sub_one_eq_mod (s.v (fetch_n2 s)) 5
    simp only [u8]
    have h' : s.v (fetch_n2 s) &&& 31 = s.v (fetch_n2 s) % 32 := h
    rw [h']; omega
  have hn := fetch_n3_lt s
  obtain ⟨t0, ht0, hframe, hvo, hv15, hpix, hflag, hhigh, hlt⟩ :=
    sprite_loop_spec (s.v (fetch_n1 s) % 64) (s.v (fetch_n2 s) % 32)
      (Nat.mod_lt _ (by decide)) (Nat.mod_lt _ (by decide)) (fetch_n3 s) 0
      { s with pc := u16 (s.pc + 2), v := store s.v 0xf 0 }
      (by omega) (by simpa using hi) hwf.memory_lt (by simp [store])
  have hmem0 : t0.memory = s.memory := by rw [hframe]
  have hi0 : t0.i = s.i := by rw [hframe]
  have hpc0 : t0.pc = u16 (s.pc + 2) := by rw [hframe]
  have hst0 : t0.state = s.state := by rw [hframe]
  have hstep : run_vm_step r s = some (DELAY 22734
      { t0 with v := store t0.v 0xf (if t0.v 0xf ≠ 0 then 1 else 0) }) := by
    rw [run_vm_step_d r s hpc h0]
    simp only [run_vm_case_d, hx, hy, ht0, Option.map_some']
  refine ⟨_, hstep, ?_, ?_, ?_, ?_, ?_, ?_, ?_, ?_, ?_, ?_⟩
  · rw [DELAY_memory]; exact hmem0
  · rw [DELAY_i]; exact hi0
  · rw [DELAY_pc]; exact hpc0
  · rw [DELAY_state]; exact hst0
  · intro k hk
    rw [DELAY_v]
    simp only [store, if_neg hk]
    rw [hvo k hk]
    simp only [store, if_neg hk]
  · intro col row hcol hrow
    rw [DELAY_display]
    have := hpix col row hcol hrow
    simpa using this
  · intro hex
    rw [DELAY_v]
    have : t0.v 0xf ≠ 0 := hflag.2 (Or.inr (by simpa using hex))
    simp [store, this]
  · intro hnex
    rw [DELAY_v]
    have : ¬ t0.v 0xf ≠ 0 := by
      intro h
      rcases hflag.1 h with h1 | h1
      · simp [store] at h1
      · exact hnex (by simpa using h1)
    simp only [store, if_true, if_neg this]
  · intro k hk
    rw [DELAY_display]
    exact hhigh k hk
  · intro k hk
    rw [DELAY_display]
    exact hlt k hk

theorem sprite_col_add (X c : Nat) (hX : X < 64) (hc : c < 8) :
    sprite_col X ((X + c) % 64) = c := by
  simp only [sprite_col]; omega

theorem sprite_line_add (Y rr : Nat) (hY : Y < 32) (hr : rr < 16) :
    sprite_line Y ((Y + rr) % 32) = rr := by
  simp only [sprite_line]; omega

theorem add_sprite_col (X col : Nat) (hX : X < 64) (hcol : col < 64) :
    (X + sprite_col X col) % 64 = col := by
  simp only [sprite_col]; omega

theorem add_sprite_line (Y row : Nat) (hY : Y < 32) (hrow : row < 32) :
    (Y + sprite_line Y row) % 32 = row := by
  simp only [sprite_line]; omega

/-- Claim C4: for `dxyn` with `i + n ≤ 4096`, `X = vx mod 64` and `Y = vy mod 32`
read before the instruction: every pixel at column `(X + c) mod 64`, row
`(Y + r) mod 32` with `r < n`, `c < 8` becomes its old value XOR bit `7 - c` of
`memory[i + r]`; every other pixel is unchanged; nothing outside the 256 display
bytes is written; pixel `(col, row)` is bit `7 - col mod 8` of
`display[row * 8 + col / 8]`. The columns wrap within the row, so a sprite at
`X ≥ 57` continues at the start of the same row. -/
theorem draw_xor_pixels (r : Nat) (s : Vm) (hwf : s.wf) (hpc : s.pc + 1 < MEMORY_SIZE)
    (h0 : fetch_n0 s = 0xd) (hi : s.i + fetch_n3 s ≤ MEMORY_SIZE) :
    ∃ t, run_vm_step r s = some t ∧
      (∀ rr c, rr < fetch_n3 s → c < 8 →
        pixel t.display ((s.v (fetch_n1 s) % 64 + c) % 64) ((s.v (fetch_n2 s) % 32 + rr) % 32) =
          (pixel s.display ((s.v (fetch_n1 s) % 64 + c) % 64) ((s.v (fetch_n2 s) % 32 + rr) % 32)
            ^^ (s.memory (s.i + rr)).testBit (7 - c))) ∧
      (∀ col row, col < 64 → row < 32 →
        (¬ ∃ rr c, rr < fetch_n3 s ∧ c < 8 ∧ col = (s.v (fetch_n1 s) % 64 + c) % 64 ∧
          row = (s.v (fetch_n2 s) % 32 + rr) % 32) →
        pixel t.display col row = pixel s.display col row) ∧
      (∀ k, 256 ≤ k → t.display k = s.display k) ∧
      (∀ (d : Nat → Nat) col row,
        pixel d col row = (d (row * 8 + col / 8)).testBit (7 - col % 8)) := by
  obtain ⟨t, ht, -, -, -, -, -, hpix, -, -, hhigh, -⟩ := draw_spec r s hwf hpc h0 hi
  have hX : s.v (fetch_n1 s) % 64 < 64 := Nat.mod_lt _ (by decide)
  have hY : s.v (fetch_n2 s) % 32 < 32 := Nat.mod_lt _ (by decide)
  have hn := fetch_n3_lt s
  refine ⟨t, ht, ?_, ?_, hhigh, fun _ _ _ => rfl⟩
  · intro rr c hr hc
    rw [hpix _ _ (Nat.mod_lt _ (by decide)) (Nat.mod_lt _ (by decide)),
      sprite_col_add _ c hX hc, sprite_line_add _ rr hY (by omega), if_pos ⟨hr, hc⟩]
  · intro col row hcol hrow hno
    rw [hpix col row hcol hrow, if_neg]
    rintro ⟨h1, h2⟩
    exact hno ⟨_, _, h1, h2, (add_sprite_col _ col hX hcol).symm,
      (add_sprite_line _ row hY hrow).symm⟩

/-- Witness for `draw_xor_pixels`: the row `0xFF` drawn at `x = 60` sets pixel 63
and wraps to pixel 0 of the same row. -/
theorem draw_xor_pixels_witness :
    (loaded_with [0xd0, 0x11, 0xff] 0x202 (store (fun _ => 0) 0 60) (fun _ => 0)).wf ∧
    ∃ t, run_vm_step 0
        (loaded_with [0xd0, 0x11, 0xff] 0x202 (store (fun _ => 0) 0 60) (fun _ => 0)) = some t ∧
      pixel t.display 63 0 = true ∧ pixel t.display 0 0 = true := by
  have hwf : (loaded_with [0xd0, 0x11, 0xff] 0x202 (store (fun _ => 0) 0 60) (fun _ => 0)).wf :=
    loaded_with_wf _ _ _ _ (by decide) (by decide) (by decide)
      (fun _ _ => (by decide : (0 : Nat) < 256))
  obtain ⟨t, ht, h1, -, -, -⟩ := draw_xor_pixels 0 _ hwf (by decide) (by decide) (by decide)
  exact ⟨hwf, t, ht, (h1 0 3 (by decide) (by decide)).trans (by decide),
    (h1 0 4 (by decide) (by decide)).trans (by decide)⟩

/-- Claim C5: for `dxyn` with `i + n ≤ 4096` and every prior `vF`, `vF` after the
draw is 1 if some sprite bit that is set targets a pixel that was set before the
draw, and 0 otherwise; it is never another value. -/
theorem draw_collision_flag (r : Nat) (s : Vm) (hwf : s.wf) (hpc : s.pc + 1 < MEMORY_SIZE)
    (h0 : fetch_n0 s = 0xd) (hi : s.i + fetch_n3 s ≤ MEMORY_SIZE) :
    ∃ t, run_vm_step r s = some t ∧
      ((∃ rr c, rr < fetch_n3 s ∧ c < 8 ∧ (s.memory (s.i + rr)).testBit (7 - c) = true ∧
          pixel s.display ((s.v (fetch_n1 s) % 64 + c) % 64)
            ((s.v (fetch_n2 s) % 32 + rr) % 32) = true) → t.v 0xf = 1) ∧
      ((¬ ∃ rr c, rr < fetch_n3 s ∧ c < 8 ∧ (s.memory (s.i + rr)).testBit (7 - c) = true ∧
          pixel s.display ((s.v (fetch_n1 s) % 64 + c) % 64)
            ((s.v (fetch_n2 s) % 32 + rr) % 32) = true) → t.v 0xf = 0) ∧
      (t.v 0xf = 0 ∨ t.v 0xf = 1) := by
  obtain ⟨t, ht, -, -, -, -, -, -, hyes, hno, -, -⟩ := draw_spec r s hwf hpc h0 hi
  have hX : s.v (fetch_n1 s) % 64 < 64 := Nat.mod_lt _ (by decide)
  have hY : s.v (fetch_n2 s) % 32 < 32 := Nat.mod_lt _ (by decide)
  have hn := fetch_n3_lt s
  have hA : (∃ rr c, rr < fetch_n3 s ∧ c < 8 ∧ (s.memory (s.i + rr)).testBit (7 - c) = true ∧
      pixel s.display ((s.v (fetch_n1 s) % 64 + c) % 64)
        ((s.v (fetch_n2 s) % 32 + rr) % 32) = true) → t.v 0xf = 1 := by
    rintro ⟨rr, c, hr, hc, hbit, hp⟩
    apply hyes
    refine ⟨_, _, Nat.mod_lt _ (by decide), Nat.mod_lt _ (by decide), ?_, ?_, ?_, hp⟩
    · rw [sprite_line_add _ rr hY (by omega)]; exact hr
    · rw [sprite_col_add _ c hX hc]; exact hc
    · rw [sprite_col_add _ c hX hc, sprite_line_add _ rr hY (by omega)]; exact hbit
  have hB : (¬ ∃ rr c, rr < fetch_n3 s ∧ c < 8 ∧ (s.memory (s.i + rr)).testBit (7 - c) = true ∧
      pixel s.display ((s.v (fetch_n1 s) % 64 + c) % 64)
        ((s.v (fetch_n2 s) % 32 + rr) % 32) = true) → t.v 0xf = 0 := by
    intro hnone
    apply hno
    rintro ⟨col, row, hcol, hrow, h1, h2, hbit, hp⟩
    refine hnone ⟨_, _, h1, h2, hbit, ?_⟩
    rw [add_sprite_col _ col hX hcol, add_sprite_line _ row hY hrow]; exact hp
  refine ⟨t, ht, hA, hB, ?_⟩
  by_cases hex : ∃ rr c, rr < fetch_n3 s ∧ c < 8 ∧ (s.memory (s.i + rr)).testBit (7 - c) = true ∧
      pixel s.display ((s.v (fetch_n1 s) % 64 + c) % 64)
        ((s.v (fetch_n2 s) % 32 + rr) % 32) = true
  · exact Or.inr (hA hex)
  · exact Or.inl (hB hex)


/-- Witness for `draw_collision_flag`: the row `0x80` drawn over a set pixel `(0, 0)`
reports a collision. -/
theorem draw_collision_flag_witness :
    (loaded_with [0xd0, 0x11, 0x80] 0x202 (fun _ => 0) (store (fun _ => 0) 0 0x80)).wf ∧
    ∃ t, run_vm_step 0
        (loaded_with [0xd0, 0x11, 0x80] 0x202 (fun _ => 0) (store (fun _ => 0) 0 0x80)) = some t ∧
      t.v 0xf = 1 := by
  have hwf : (loaded_with [0xd0, 0x11, 0x80] 0x202 (fun _ => 0) (store (fun _ => 0) 0 0x80)).wf :=
    loaded_with_wf _ _ _ _ (by decide) (by decide) (fun _ _ => (by decide : (0 : Nat) < 256))
      (by intro k _; simp only [store]; split_ifs <;> decide)
  obtain ⟨t, ht, h1, -, -⟩ := draw_collision_flag 0 _ hwf (by decide) (by decide) (by decide)
  exact ⟨hwf, t, ht, h1 ⟨0, 0, by decide, by decide, by decide, by decide⟩⟩

theorem pixel_congr (d1 d2 : Nat → Nat) (h : ∀ k, k < 256 → d1 k = d2 k) (col row : Nat)
    (hcol : col < 64) (hrow : row < 32) : pixel d1 col row = pixel d2 col row := by
  simp only [pixel]
  rw [h (row * 8 + col / 8) (by omega)]

theorem byte_eq_of_pixels (d1 d2 : Nat → Nat) (k : Nat) (hk : k < 256)
    (h1 : d1 k < 256) (h2 : d2 k < 256)
    (h : ∀ col row, col < 64 → row < 32 → pixel d1 col row = pixel d2 col row) :
    d1 k = d2 k := by
  apply Nat.eq_of_testBit_eq
  intro j
  by_cases hj : j < 8
  · have hp := h (8 * (k % 8) + (7 - j)) (k / 8) (by omega) (by omega)
    have e1 : k / 8 * 8 + (8 * (k % 8) + (7 - j)) / 8 = k := by omega
    have e2 : 7 - (8 * (k % 8) + (7 - j)) % 8 = j := by omega
    simp only [pixel, e1, e2] at hp
    exact hp
  · rw [testBit_byte_high _ j h1 (by omega), testBit_byte_high _ j h2 (by omega)]

/-- Two executions of the same `dxyn`: pixels and collision flag after the second. -/
theorem draw_twice_spec (r r2 : Nat) (s s2 : Vm) (hwf : s.wf) (hwf2 : s2.wf)
    (hpc : s.pc + 1 < MEMORY_SIZE) (hpc2 : s2.pc + 1 < MEMORY_SIZE)
    (h0 : fetch_n0 s = 0xd) (h02 : fetch_n0 s2 = 0xd)
    (hi : s.i + fetch_n3 s ≤ MEMORY_SIZE) (hi2 : s2.i + fetch_n3 s2 ≤ MEMORY_SIZE)
    (hn : fetch_n3 s2 = fetch_n3 s)
    (hvx : s2.v (fetch_n1 s2) = s.v (fetch_n1 s)) (hvy : s2.v (fetch_n2 s2) = s.v (fetch_n2 s))
    (hspr : ∀ rr, rr < fetch_n3 s → s2.memory (s2.i + rr) = s.memory (s.i + rr)) :
    ∃ t, run_vm_step r s = some t ∧
      ((∀ k, k < 256 → s2.display k = t.display k) →
        ∃ t2, run_vm_step r2 s2 = some t2 ∧
          (∀ col row, col < 64 → row < 32 → pixel t2.display col row = pixel s.display col row) ∧
          (∀ k, k < 256 → t2.display k < 256) ∧
          ((∃ col row, col < 64 ∧ row < 32 ∧
              sprite_line (s.v (fetch_n2 s) % 32) row < fetch_n3 s ∧
              sprite_col (s.v (fetch_n1 s) % 64) col < 8 ∧
              (s.memory (s.i + sprite_line (s.v (fetch_n2 s) % 32) row)).testBit
                (7 - sprite_col (s.v (fetch_n1 s) % 64) col) = true ∧
              pixel s.display col row = false) → t2.v 0xf = 1) ∧
          ((¬ ∃ col row, col < 64 ∧ row < 32 ∧
              sprite_line (s.v (fetch_n2 s) % 32) row < fetch_n3 s ∧
              sprite_col (s.v (fetch_n1 s) % 64) col < 8 ∧
              (s.memory (s.i + sprite_line (s.v (fetch_n2 s) % 32) row)).testBit
                (7 - sprite_col (s.v (fetch_n1 s) % 64) col) = true ∧
              pixel s.display col row = false) → t2.v 0xf = 0)) := by
  obtain ⟨t, ht, -, -, -, -, -, hpix, -, -, -, -⟩ := draw_spec r s hwf hpc h0 hi
  refine ⟨t, ht, ?_⟩
  intro hdisp
  obtain ⟨t2, ht2, -, -, -, -, -, hpix2, hyes2, hno2, -, hlt2⟩ :=
    draw_spec r2 s2 hwf2 hpc2 h02 hi2
  rw [hn, hvx, hvy] at hpix2 hyes2 hno2
  have hs2 : ∀ col row, col < 64 → row < 32 → pixel s2.display col row =
      if sprite_line (s.v (fetch_n2 s) % 32) row < fetch_n3 s ∧
          sprite_col (s.v (fetch_n1 s) % 64) col < 8 then
        (pixel s.display col row ^^
          (s.memory (s.i + sprite_line (s.v (fetch_n2 s) % 32) row)).testBit
            (7 - sprite_col (s.v (fetch_n1 s) % 64) col))
      else pixel s.display col row := by
    intro col row hcol hrow
    rw [pixel_congr _ _ hdisp col row hcol hrow, hpix col row hcol hrow]
  refine ⟨t2, ht2, ?_, ?_, ?_, ?_⟩
  · intro col row hcol hrow
    rw [hpix2 col row hcol hrow, hs2 col row hcol hrow]
    by_cases htarget : sprite_line (s.v (fetch_n2 s) % 32) row < fetch_n3 s ∧
        sprite_col (s.v (fetch_n1 s) % 64) col < 8
    · simp only [if_pos htarget, hspr _ htarget.1]
      cases pixel s.display col row <;>
        cases (s.memory (s.i + sprite_line (s.v (fetch_n2 s) % 32) row)).testBit
          (7 - sprite_col (s.v (fetch_n1 s) % 64) col) <;> rfl
    · simp only [if_neg htarget]
  · intro k hk
    exact hlt2 k (hwf2.display_lt k hk)
  · rintro ⟨col, row, hcol, hrow, h1, h2, hbit, hp⟩
    apply hyes2
    refine ⟨col, row, hcol, hrow, h1, h2, ?_, ?_⟩
    · rw [hspr _ h1]; exact hbit
    · rw [hs2 col row hcol hrow, if_pos ⟨h1, h2⟩, hbit, hp]; rfl
  · intro hnone
    apply hno2
    rintro ⟨col, row, hcol, hrow, h1, h2, hbit, hp⟩
    rw [hspr _ h1] at hbit
    refine hnone ⟨col, row, hcol, hrow, h1, h2, hbit, ?_⟩
    rw [hs2 col row hcol hrow, if_pos ⟨h1, h2⟩, hbit] at hp
    revert hp
    cases pixel s.display col row <;> simp

/-- Claim C6: let `dxyn` be executed in `s` (with `i + n ≤ 4096`), giving `t`, and
executed again in any state `s2` that holds the framebuffer of `t`, the same
height `n`, the same coordinate values `vx`, `vy` and the same `n` sprite bytes.
Then the framebuffer after the second draw equals that of `s` byte for byte. -/
theorem draw_twice_restores (r r2 : Nat) (s s2 : Vm) (hwf : s.wf) (hwf2 : s2.wf)
    (hpc : s.pc + 1 < MEMORY_SIZE) (hpc2 : s2.pc + 1 < MEMORY_SIZE)
    (h0 : fetch_n0 s = 0xd) (h02 : fetch_n0 s2 = 0xd)
    (hi : s.i + fetch_n3 s ≤ MEMORY_SIZE) (hi2 : s2.i + fetch_n3 s2 ≤ MEMORY_SIZE)
    (hn : fetch_n3 s2 = fetch_n3 s)
    (hvx : s2.v (fetch_n1 s2) = s.v (fetch_n1 s)) (hvy : s2.v (fetch_n2 s2) = s.v (fetch_n2 s))
    (hspr : ∀ rr, rr < fetch_n3 s → s2.memory (s2.i + rr) = s.memory (s.i + rr)) :
    ∃ t, run_vm_step r s = some t ∧
      ((∀ k, k < 256 → s2.display k = t.display k) →
        ∃ t2, run_vm_step r2 s2 = some t2 ∧ ∀ k, k < 256 → t2.display k = s.display k) := by
  obtain ⟨t, ht, h⟩ :=
    draw_twice_spec r r2 s s2 hwf hwf2 hpc hpc2 h0 h02 hi hi2 hn hvx hvy hspr
  refine ⟨t, ht, fun hdisp => ?_⟩
  obtain ⟨t2, ht2, hpix, hlt, -, -⟩ := h hdisp
  exact ⟨t2, ht2, fun k hk =>
    byte_eq_of_pixels _ _ k hk (hlt k hk) (hwf.display_lt k hk) hpix⟩

/-- Witness for `draw_twice_restores`: the row `0x80` drawn twice at `(0, 0)` on a
blank framebuffer; byte 0 is `0x80` after the first draw and 0 after the second. -/
theorem draw_twice_restores_witness :
    (loaded_with [0xd0, 0x11, 0x80] 0x202 (fun _ => 0) (fun _ => 0)).wf ∧
    (loaded_with [0xd0, 0x11, 0x80] 0x202 (fun _ => 0) (store (fun _ => 0) 0 0x80)).wf ∧
    ∃ t, run_vm_step 0 (loaded_with [0xd0, 0x11, 0x80] 0x202 (fun _ => 0) (fun _ => 0)) = some t ∧
      t.display 0 = 0x80 ∧
      ∃ t2, run_vm_step 0
          (loaded_with [0xd0, 0x11, 0x80] 0x202 (fun _ => 0) (store (fun _ => 0) 0 0x80)) =
            some t2 ∧
        t2.display 0 = 0 := by
  have hwf : (loaded_with [0xd0, 0x11, 0x80] 0x202 (fun _ => 0) (fun _ => 0)).wf :=
    loaded_with_wf _ _ _ _ (by decide) (by decide) (fun _ _ => (by decide : (0 : Nat) < 256))
      (fun _ _ => (by decide : (0 : Nat) < 256))
  have hwf2 : (loaded_with [0xd0, 0x11, 0x80] 0x202 (fun _ => 0) (store (fun _ => 0) 0 0x80)).wf :=
    loaded_with_wf _ _ _ _ (by decide) (by decide) (fun _ _ => (by decide : (0 : Nat) < 256))
      (by intro k _; simp only [store]; split_ifs <;> decide)
  obtain ⟨t, ht, h⟩ := draw_twice_restores 0 0 _ _ hwf hwf2 (by decide) (by decide) (by decide)
    (by decide) (by decide) (by decide) (by decide) (by decide) (by decide) (fun _ _ => rfl)
  have ht' : t = (run_vm_step 0
      (loaded_with [0xd0, 0x11, 0x80] 0x202 (fun _ => 0) (fun _ => 0))).getD zeroed := by
    rw [ht]; rfl
  have hdisp : ∀ k, k < 256 → (loaded_with [0xd0, 0x11, 0x80] 0x202 (fun _ => 0)
      (store (fun _ => 0) 0 0x80)).display k = t.display k := by
    intro k _; rw [ht']; rfl
  obtain ⟨t2, ht2, hback⟩ := h hdisp
  exact ⟨hwf, hwf2, t, ht, (hdisp 0 (by decide)).symm, t2, ht2, hback 0 (by decide)⟩

/-- Claim C7, amended: when the same `dxyn` is executed twice at the same
coordinates with the same sprite bytes, `vF` is 1 after the second draw if some
set sprite bit targets a pixel that was 0 before the first draw, and 0 if every
set sprite bit targets a pixel that was 1 before the first draw. -/
theorem draw_twice_flag (r r2 : Nat) (s s2 : Vm) (hwf : s.wf) (hwf2 : s2.wf)
    (hpc : s.pc + 1 < MEMORY_SIZE) (hpc2 : s2.pc + 1 < MEMORY_SIZE)
    (h0 : fetch_n0 s = 0xd) (h02 : fetch_n0 s2 = 0xd)
    (hi : s.i + fetch_n3 s ≤ MEMORY_SIZE) (hi2 : s2.i + fetch_n3 s2 ≤ MEMORY_SIZE)
    (hn : fetch_n3 s2 = fetch_n3 s)
    (hvx : s2.v (fetch_n1 s2) = s.v (fetch_n1 s)) (hvy : s2.v (fetch_n2 s2) = s.v (fetch_n2 s))
    (hspr : ∀ rr, rr < fetch_n3 s → s2.memory (s2.i + rr) = s.memory (s.i + rr)) :
    ∃ t, run_vm_step r s = some t ∧
      ((∀ k, k < 256 → s2.display k = t.display k) →
        ∃ t2, run_vm_step r2 s2 = some t2 ∧
          ((∃ rr c, rr < fetch_n3 s ∧ c < 8 ∧ (s.memory (s.i + rr)).testBit (7 - c) = true ∧
              pixel s.display ((s.v (fetch_n1 s) % 64 + c) % 64)
                ((s.v (fetch_n2 s) % 32 + rr) % 32) = false) → t2.v 0xf = 1) ∧
          ((¬ ∃ rr c, rr < fetch_n3 s ∧ c < 8 ∧ (s.memory (s.i + rr)).testBit (7 - c) = true ∧
              pixel s.display ((s.v (fetch_n1 s) % 64 + c) % 64)
                ((s.v (fetch_n2 s) % 32 + rr) % 32) = false) → t2.v 0xf = 0)) := by
  obtain ⟨t, ht, h⟩ :=
    draw_twice_spec r r2 s s2 hwf hwf2 hpc hpc2 h0 h02 hi hi2 hn hvx hvy hspr
  have hX : s.v (fetch_n1 s) % 64 < 64 := Nat.mod_lt _ (by decide)
  have hY : s.v (fetch_n2 s) % 32 < 32 := Nat.mod_lt _ (by decide)
  have hn3 := fetch_n3_lt s
  refine ⟨t, ht, fun hdisp => ?_⟩
  obtain ⟨t2, ht2, -, -, hyes, hno⟩ := h hdisp
  refine ⟨t2, ht2, ?_, ?_⟩
  · rintro ⟨rr, c, hr, hc, hbit, hp⟩
    apply hyes
    refine ⟨_, _, Nat.mod_lt _ (by decide), Nat.mod_lt _ (by decide), ?_, ?_, ?_, hp⟩
    · rw [sprite_line_add _ rr hY (by omega)]; exact hr
    · rw [sprite_col_add _ c hX hc]; exact hc
    · rw [sprite_col_add _ c hX hc, sprite_line_add _ rr hY (by omega)]; exact hbit
  · intro hnone
    apply hno
    rintro ⟨col, row, hcol, hrow, h1, h2, hbit, hp⟩
    refine hnone ⟨_, _, h1, h2, hbit, ?_⟩
    rw [add_sprite_col _ col hX hcol, add_sprite_line _ row hY hrow]; exact hp

/-- Witness for `draw_twice_flag`: the row `0x80` drawn twice at `(0, 0)` on a blank
framebuffer; the second draw collides. -/
theorem draw_twice_flag_witness :
    (loaded_with [0xd0, 0x11, 0x80] 0x202 (fun _ => 0) (fun _ => 0)).wf ∧
    (loaded_with [0xd0, 0x11, 0x80] 0x202 (fun _ => 0) (store (fun _ => 0) 0 0x80)).wf ∧
    ∃ t, run_vm_step 0 (loaded_with [0xd0, 0x11, 0x80] 0x202 (fun _ => 0) (fun _ => 0)) = some t ∧
      t.display 0 = 0x80 ∧
      ∃ t2, run_vm_step 0
          (loaded_with [0xd0, 0x11, 0x80] 0x202 (fun _ => 0) (store (fun _ => 0) 0 0x80)) =
            some t2 ∧
        t2.v 0xf = 1 := by
  have hwf : (loaded_with [0xd0, 0x11, 0x80] 0x202 (fun _ => 0) (fun _ => 0)).wf :=
    loaded_with_wf _ _ _ _ (by decide) (by decide) (fun _ _ => (by decide : (0 : Nat) < 256))
      (fun _ _ => (by decide : (0 : Nat) < 256))
  have hwf2 : (loaded_with [0xd0, 0x11, 0x80] 0x202 (fun _ => 0) (store (fun _ => 0) 0 0x80)).wf :=
    loaded_with_wf _ _ _ _ (by decide) (by decide) (fun _ _ => (by decide : (0 : Nat) < 256))
      (by intro k _; simp only [store]; split_ifs <;> decide)
  obtain ⟨t, ht, h⟩ := draw_twice_flag 0 0 _ _ hwf hwf2 (by decide) (by decide) (by decide)
    (by decide) (by decide) (by decide) (by decide) (by decide) (by decide) (fun _ _ => rfl)
  have ht' : t = (run_vm_step 0
      (loaded_with [0xd0, 0x11, 0x80] 0x202 (fun _ => 0) (fun _ => 0))).getD zeroed := by
    rw [ht]; rfl
  have hdisp : ∀ k, k < 256 → (loaded_with [0xd0, 0x11, 0x80] 0x202 (fun _ => 0)
      (store (fun _ => 0) 0 0x80)).display k = t.display k := by
    intro k _; rw [ht']; rfl
  obtain ⟨t2, ht2, hyes, -⟩ := h hdisp
  exact ⟨hwf, hwf2, t, ht, (hdisp 0 (by decide)).symm, t2, ht2,
    hyes ⟨0, 0, by decide, by decide, by decide, by decide⟩⟩

/-- Claim C7 as stated fails: the framebuffer has pixel `(0, 0)` set and the
one-row sprite `0x80` (one set bit) is drawn twice at `(0, 0)` by `d011`. The
first draw clears the pixel (`vF = 1`), the second sets it again without a
collision, so `vF = 0` after the second draw. The last conjunct reaches the same
situation from a load: `a208 d011 d011 d011` draws the sprite three times, and
after the third draw (the second on a framebuffer holding the pixel) `vF = 0`. -/
theorem draw_twice_flag_counterexample :
    fetch_n0 (loaded_with [0xd0, 0x11, 0xd0, 0x11, 0x80] 0x204 (fun _ => 0)
      (store (fun _ => 0) 0 0x80)) = 0xd ∧
    fetch_n3 (loaded_with [0xd0, 0x11, 0xd0, 0x11, 0x80] 0x204 (fun _ => 0)
      (store (fun _ => 0) 0 0x80)) = 1 ∧
    (loaded_with [0xd0, 0x11, 0xd0, 0x11, 0x80] 0x204 (fun _ => 0)
      (store (fun _ => 0) 0 0x80)).memory 0x204 = 0x80 ∧
    (run_vm_step 0 (loaded_with [0xd0, 0x11, 0xd0, 0x11, 0x80] 0x204 (fun _ => 0)
        (store (fun _ => 0) 0 0x80))).map
      (fun t => (t.pc, t.i, t.v 0, t.v 1, t.v 0xf, t.display 0)) =
        some (0x202, 0x204, 0, 0, 1, 0) ∧
    ((run_vm_step 0 (loaded_with [0xd0, 0x11, 0xd0, 0x11, 0x80] 0x204 (fun _ => 0)
        (store (fun _ => 0) 0 0x80))).bind (run_vm_step 0)).map
      (fun t => (t.pc, t.v 0xf, t.display 0)) = some (0x204, 0, 0x80) ∧
    (frame (55 + 3 * 22734) (fun _ => 0) 4
        (prepare_program [0xa2, 0x08, 0xd0, 0x11, 0xd0, 0x11, 0xd0, 0x11, 0x80] zeroed)).map
      (fun t => (t.pc, t.v 0xf, t.display 0)) = some (0x208, 0, 0x80) := by
  decide

/-! ## The range invariant is preserved by every instruction -/

theorem u8_lt (n : Nat) : u8 n < 256 := Nat.mod_lt _ (by decide)
theorem u8i_lt (z : Int) : u8i z < 256 := by
  simp only [u8i]; omega
theorem u16_lt (n : Nat) : u16 n < 65536 := Nat.mod_lt _ (by decide)

theorem store_lt (a : Nat → Nat) (k x N B : Nat) (ha : ∀ j, j < N → a j < B) (hx : x < B) :
    ∀ j, j < N → store a k x j < B := by
  intro j hj
  simp only [store]
  split_ifs
  · exact hx
  · exact ha j hj

theorem run_timers_wf (t : Int) (s : Vm) (h : s.wf) : (run_timers t s).wf := by
  have hd := h.delay_lt
  have hs := h.sound_lt
  simp only [run_timers]
  split_ifs <;>
    exact ⟨h.v_lt, h.memory_lt, h.display_lt, h.pc_lt, h.i_lt, h.stack_lt, h.stack_top_lt,
      h.key_dest_lt, by first | exact hd | (show s.delay_timer - 1 < 256; omega),
      by first | exact hs | (show s.sound_timer - 1 < 256; omega)⟩

theorem DELAY_wf (t : Int) (s : Vm) (h : s.wf) : (DELAY t s).wf :=
  run_timers_wf t _ ⟨h.v_lt, h.memory_lt, h.display_lt, h.pc_lt, h.i_lt, h.stack_lt,
    h.stack_top_lt, h.key_dest_lt, h.delay_lt, h.sound_lt⟩

theorem STOP_wf (s : Vm) (h : s.wf) : (STOP s).wf :=
  ⟨h.v_lt, h.memory_lt, h.display_lt, h.pc_lt, h.i_lt, h.stack_lt,
    h.stack_top_lt, h.key_dest_lt, h.delay_lt, h.sound_lt⟩

theorem with_v_wf (s : Vm) (h : s.wf) (v : Nat → Nat) (hv : ∀ k, k < 16 → v k < 256) :
    ({ s with v := v }).wf :=
  ⟨hv, h.memory_lt, h.display_lt, h.pc_lt, h.i_lt, h.stack_lt,
    h.stack_top_lt, h.key_dest_lt, h.delay_lt, h.sound_lt⟩

theorem with_pc_wf (s : Vm) (h : s.wf) (pc : Nat) (hpc : pc < 65536) :
    ({ s with pc := pc }).wf :=
  ⟨h.v_lt, h.memory_lt, h.display_lt, hpc, h.i_lt, h.stack_lt,
    h.stack_top_lt, h.key_dest_lt, h.delay_lt, h.sound_lt⟩

theorem with_i_wf (s : Vm) (h : s.wf) (i : Nat) (hi : i < 65536) :
    ({ s with i := i }).wf :=
  ⟨h.v_lt, h.memory_lt, h.display_lt, h.pc_lt, hi, h.stack_lt,
    h.stack_top_lt, h.key_dest_lt, h.delay_lt, h.sound_lt⟩

theorem with_display_wf (s : Vm) (h : s.wf) (d : Nat → Nat)
    (hd : ∀ k, k < DISPLAY_WIDTH * DISPLAY_HEIGHT / 8 → d k < 256) :
    ({ s with display := d }).wf :=
  ⟨h.v_lt, h.memory_lt, hd, h.pc_lt, h.i_lt, h.stack_lt,
    h.stack_top_lt, h.key_dest_lt, h.delay_lt, h.sound_lt⟩

theorem with_memory_wf (s : Vm) (h : s.wf) (m : Nat → Nat)
    (hm : ∀ k, k < MEMORY_SIZE → m k < 256) :
    ({ s with memory := m }).wf :=
  ⟨h.v_lt, hm, h.display_lt, h.pc_lt, h.i_lt, h.stack_lt,
    h.stack_top_lt, h.key_dest_lt, h.delay_lt, h.sound_lt⟩

theorem run_vm_case_8_wf (n1 n2 n3 : Nat) (s : Vm) (h : s.wf) (h2 : n2 < 16) :
    (run_vm_case_8 n1 n2 n3 s).wf := by
  have hy := h.v_lt n2 h2
  simp only [run_vm_case_8]
  split <;> first
    | exact STOP_wf s h
    | (apply DELAY_wf; apply with_v_wf s h; repeat apply store_lt
       all_goals first
         | exact h.v_lt
         | exact u8_lt _
         | exact u8i_lt _
         | exact hy
         | (split_ifs <;> decide)
         | decide)


theorem sprite_row_wf (x y yy : Nat) (s : Vm) (h : s.wf) : (sprite_row x y yy s).wf := by
  rw [sprite_row_frame]
  refine ⟨?_, h.memory_lt, ?_, h.pc_lt, h.i_lt, h.stack_lt, h.stack_top_lt, h.key_dest_lt,
    h.delay_lt, h.sound_lt⟩
  · intro k hk
    by_cases h15 : k = 0xf
    · rw [h15]; exact sprite_row_v15_lt x y yy s
    · rw [sprite_row_v_other x y yy k s h15]; exact h.v_lt k hk
  · intro k hk
    exact sprite_row_display_lt x y yy k s (h.display_lt k hk)

theorem sprite_loop_wf (x y : Nat) : ∀ (rem yy : Nat) (s t : Vm), s.wf →
    sprite_loop x y rem yy s = some t → t.wf := by
  intro rem
  induction rem with
  | zero =>
    intro yy s t h ht
    simp only [sprite_loop, Option.some.injEq] at ht
    rw [← ht]; exact h
  | succ rem ih =>
    intro yy s t h ht
    simp only [sprite_loop] at ht
    split_ifs at ht
    exact ih _ _ _ (sprite_row_wf x y yy s h) ht

theorem save_loop_wf : ∀ (rem ii : Nat) (s t : Vm), s.wf → ii + rem ≤ 16 →
    save_loop rem ii s = some t → t.wf := by
  intro rem
  induction rem with
  | zero =>
    intro ii s t h _ ht
    simp only [save_loop, Option.some.injEq] at ht
    rw [← ht]; exact h
  | succ rem ih =>
    intro ii s t h hii ht
    simp only [save_loop] at ht
    split_ifs at ht
    refine ih _ _ _ (with_memory_wf s h _ ?_) (by omega) ht
    exact store_lt _ _ _ _ _ h.memory_lt (h.v_lt ii (by omega))

theorem load_loop_wf : ∀ (rem ii : Nat) (s t : Vm), s.wf →
    load_loop rem ii s = some t → t.wf := by
  intro rem
  induction rem with
  | zero =>
    intro ii s t h ht
    simp only [load_loop, Option.some.injEq] at ht
    rw [← ht]; exact h
  | succ rem ih =>
    intro ii s t h ht
    simp only [load_loop] at ht
    split_ifs at ht with hin
    refine ih _ _ _ (with_v_wf s h _ ?_) ht
    exact store_lt _ _ _ _ _ h.v_lt (h.memory_lt _ hin)

theorem run_vm_case_0_wf (n1 n2 n3 : Nat) (s t : Vm) (h : s.wf)
    (ht : run_vm_case_0 n1 n2 n3 s = some t) : t.wf := by
  simp only [run_vm_case_0] at ht
  split_ifs at ht with _ _ _ _ _ htop <;> simp only [Option.some.injEq] at ht <;> rw [← ht]
  · exact STOP_wf s h
  · exact STOP_wf s h
  · apply DELAY_wf
    apply with_display_wf s h
    intro k hk
    rw [if_pos hk]; decide
  · exact STOP_wf s h
  · apply DELAY_wf
    exact ⟨h.v_lt, h.memory_lt, h.display_lt, h.stack_lt _ htop, h.i_lt, h.stack_lt,
      u8_lt _, h.key_dest_lt, h.delay_lt, h.sound_lt⟩
  · exact h

theorem run_vm_case_2_wf (n1 n2 n3 : Nat) (s : Vm) (h : s.wf) :
    (run_vm_case_2 n1 n2 n3 s).wf := by
  simp only [run_vm_case_2]
  split_ifs
  · exact STOP_wf s h
  · apply DELAY_wf
    exact ⟨h.v_lt, h.memory_lt, h.display_lt, u16_lt _, h.i_lt,
      store_lt _ _ _ _ _ h.stack_lt h.pc_lt, u8_lt _, h.key_dest_lt, h.delay_lt, h.sound_lt⟩

theorem run_vm_case_d_wf (n1 n2 n3 : Nat) (s t : Vm) (h : s.wf)
    (ht : run_vm_case_d n1 n2 n3 s = some t) : t.wf := by
  simp only [run_vm_case_d, Option.map_eq_some'] at ht
  obtain ⟨t0, ht0, rfl⟩ := ht
  have h0 := sprite_loop_wf _ _ _ _ _ t0
    (with_v_wf s h _ (store_lt _ _ _ _ _ h.v_lt (by decide))) ht0
  apply DELAY_wf
  apply with_v_wf t0 h0
  apply store_lt _ _ _ _ _ h0.v_lt
  split_ifs <;> decide

theorem run_vm_case_e_wf (n1 n2 n3 : Nat) (s t : Vm) (h : s.wf)
    (ht : run_vm_case_e n1 n2 n3 s = some t) : t.wf := by
  simp only [run_vm_case_e] at ht
  split_ifs at ht <;> simp only [Option.some.injEq] at ht <;> rw [← ht] <;>
    first
      | exact STOP_wf s h
      | exact DELAY_wf _ _ h
      | exact DELAY_wf _ _ (with_pc_wf s h _ (u16_lt _))


theorem run_vm_case_f_wf (n1 n2 n3 : Nat) (s t : Vm) (h : s.wf) (h1 : n1 < 16)
    (ht : run_vm_case_f n1 n2 n3 s = some t) : t.wf := by
  have hx := h.v_lt n1 h1
  unfold run_vm_case_f at ht
  by_cases c07 : nn n2 n3 = 0x07
  · rw [if_pos c07] at ht
    rw [← Option.some.inj ht]
    exact DELAY_wf _ _ (with_v_wf s h _ (store_lt _ _ _ _ _ h.v_lt h.delay_lt))
  rw [if_neg c07] at ht
  by_cases c0a : nn n2 n3 = 0x0a
  · rw [if_pos c0a] at ht
    rw [← Option.some.inj ht]
    have hk : n1 < 256 := by omega
    have hr : (run_timers s.micros
        { s with key_dest := n1, state := vm_state.VM_WAIT_FOR_KEY }).wf :=
      run_timers_wf _ _ ⟨h.v_lt, h.memory_lt, h.display_lt, h.pc_lt, h.i_lt, h.stack_lt,
        h.stack_top_lt, hk, h.delay_lt, h.sound_lt⟩
    exact ⟨hr.v_lt, hr.memory_lt, hr.display_lt, hr.pc_lt, hr.i_lt, hr.stack_lt,
      hr.stack_top_lt, hr.key_dest_lt, hr.delay_lt, hr.sound_lt⟩
  rw [if_neg c0a] at ht
  by_cases c15 : nn n2 n3 = 0x15
  · rw [if_pos c15] at ht
    rw [← Option.some.inj ht]
    exact DELAY_wf _ _ ⟨h.v_lt, h.memory_lt, h.display_lt, h.pc_lt, h.i_lt, h.stack_lt,
      h.stack_top_lt, h.key_dest_lt, hx, h.sound_lt⟩
  rw [if_neg c15] at ht
  by_cases c18 : nn n2 n3 = 0x18
  · rw [if_pos c18] at ht
    rw [← Option.some.inj ht]
    exact DELAY_wf _ _ ⟨h.v_lt, h.memory_lt, h.display_lt, h.pc_lt, h.i_lt, h.stack_lt,
      h.stack_top_lt, h.key_dest_lt, h.delay_lt, hx⟩
  rw [if_neg c18] at ht
  by_cases c1e : nn n2 n3 = 0x1e
  · rw [if_pos c1e] at ht
    rw [← Option.some.inj ht]
    apply DELAY_wf
    apply with_i_wf s h
    exact u16_lt _
  rw [if_neg c1e] at ht
  by_cases c29 : nn n2 n3 = 0x29
  · rw [if_pos c29] at ht
    rw [← Option.some.inj ht]
    apply DELAY_wf
    apply with_i_wf s h
    exact u16_lt _
  rw [if_neg c29] at ht
  by_cases c33 : nn n2 n3 = 0x33
  · rw [if_pos c33] at ht
    by_cases hin : s.i + 2 < MEMORY_SIZE
    · rw [if_pos hin] at ht
      rw [← Option.some.inj ht]
      apply DELAY_wf
      apply with_memory_wf s h
      exact store_lt _ _ _ _ _ (store_lt _ _ _ _ _ (store_lt _ _ _ _ _ h.memory_lt (u8_lt _))
        (u8_lt _)) (u8_lt _)
    · rw [if_neg hin] at ht
      exact absurd ht (by simp)
  rw [if_neg c33] at ht
  by_cases c55 : nn n2 n3 = 0x55
  · rw [if_pos c55, Option.map_eq_some'] at ht
    obtain ⟨t0, ht0, rfl⟩ := ht
    have h0 := save_loop_wf _ _ _ t0 h (by omega) ht0
    apply DELAY_wf
    apply with_i_wf t0 h0
    exact u16_lt _
  rw [if_neg c55] at ht
  by_cases c65 : nn n2 n3 = 0x65
  · rw [if_pos c65, Option.map_eq_some'] at ht
    obtain ⟨t0, ht0, rfl⟩ := ht
    have h0 := load_loop_wf _ _ _ t0 h ht0
    apply DELAY_wf
    apply with_i_wf t0 h0
    exact u16_lt _
  rw [if_neg c65] at ht
  rw [← Option.some.inj ht]
  exact STOP_wf s h

theorem run_vm_switch_wf (r n0 n1 n2 n3 : Nat) (s t : Vm) (h : s.wf) (h1 : n1 < 16)
    (h2 : n2 < 16) (ht : run_vm_switch r n0 n1 n2 n3 s = some t) : t.wf := by
  simp only [run_vm_switch] at ht
  split at ht
  · exact run_vm_case_0_wf _ _ _ _ _ h ht
  · simp only [Option.some.injEq] at ht; rw [← ht]
    exact DELAY_wf _ _ (with_pc_wf s h _ (u16_lt _))
  · simp only [Option.some.injEq] at ht; rw [← ht]
    exact run_vm_case_2_wf _ _ _ _ h
  · simp only [Option.some.injEq] at ht; rw [← ht]
    split_ifs
    · exact DELAY_wf _ _ (with_pc_wf s h _ (u16_lt _))
    · exact DELAY_wf _ _ h
  · simp only [Option.some.injEq] at ht; rw [← ht]
    split_ifs
    · exact DELAY_wf _ _ (with_pc_wf s h _ (u16_lt _))
    · exact DELAY_wf _ _ h
  · split_ifs at ht <;> simp only [Option.some.injEq] at ht <;> rw [← ht]
    · exact STOP_wf s h
    · exact DELAY_wf _ _ (with_pc_wf s h _ (u16_lt _))
    · exact DELAY_wf _ _ h
  · simp only [Option.some.injEq] at ht; rw [← ht]
    exact DELAY_wf _ _ (with_v_wf s h _ (store_lt _ _ _ _ _ h.v_lt (u8_lt _)))
  · simp only [Option.some.injEq] at ht; rw [← ht]
    exact DELAY_wf _ _ (with_v_wf s h _ (store_lt _ _ _ _ _ h.v_lt (u8_lt _)))
  · simp only [Option.some.injEq] at ht; rw [← ht]
    exact run_vm_case_8_wf _ _ _ _ h h2
  · split_ifs at ht <;> simp only [Option.some.injEq] at ht <;> rw [← ht]
    · exact STOP_wf s h
    · exact DELAY_wf _ _ (with_pc_wf s h _ (u16_lt _))
    · exact DELAY_wf _ _ h
  · simp only [Option.some.injEq] at ht; rw [← ht]
    exact DELAY_wf _ _ (with_i_wf s h _ (u16_lt _))
  · simp only [Option.some.injEq] at ht; rw [← ht]
    exact DELAY_wf _ _ (with_pc_wf s h _ (u16_lt _))
  · simp only [Option.some.injEq] at ht; rw [← ht]
    exact DELAY_wf _ _ (with_v_wf s h _ (store_lt _ _ _ _ _ h.v_lt (u8_lt _)))
  · exact run_vm_case_d_wf _ _ _ _ _ h ht
  · exact run_vm_case_e_wf _ _ _ _ _ h ht
  · exact run_vm_case_f_wf _ _ _ _ _ h h1 ht
  · simp only [Option.some.injEq] at ht; rw [← ht]; exact h

/-- The range invariant is preserved by every instruction. -/
theorem run_vm_step_wf (r : Nat) (s t : Vm) (h : s.wf) (ht : run_vm_step r s = some t) :
    t.wf := by
  simp only [run_vm_step] at ht
  split_ifs at ht with hpc
  exact run_vm_switch_wf _ _ _ _ _ _ t (with_pc_wf s h _ (u16_lt _)) (fetch_n1_lt s)
    (fetch_n2_lt s h hpc) ht

/-- The range invariant is preserved by the instruction loop. -/
theorem run_vm_loop_wf (rnd : Nat → Nat) : ∀ (fuel k : Nat) (s t : Vm), s.wf →
    run_vm_loop rnd fuel k s = some t → t.wf := by
  intro fuel
  induction fuel with
  | zero =>
    intro k s t h ht
    simp only [run_vm_loop] at ht
    split_ifs at ht
    rw [← Option.some.inj ht]; exact h
  | succ fuel ih =>
    intro k s t h ht
    simp only [run_vm_loop] at ht
    split_ifs at ht
    · rw [Option.bind_eq_some] at ht
      obtain ⟨s1, hs1, ht1⟩ := ht
      exact ih _ _ _ (run_vm_step_wf _ _ _ h hs1) ht1
    · rw [← Option.some.inj ht]; exact h

/-- The range invariant is preserved by a frame. -/
theorem frame_wf (elapsed : Int) (rnd : Nat → Nat) (fuel : Nat) (s t : Vm) (h : s.wf)
    (ht : frame elapsed rnd fuel s = some t) : t.wf := by
  simp only [frame] at ht
  split_ifs at ht
  · rw [← Option.some.inj ht]
    apply with_display_wf s h
    intro k hk
    rw [if_pos hk]; exact u8_lt _
  · simp only [run_vm] at ht
    refine run_vm_loop_wf rnd fuel 0 _ t ?_ ht
    exact ⟨h.v_lt, h.memory_lt, h.display_lt, h.pc_lt, h.i_lt, h.stack_lt, h.stack_top_lt,
      h.key_dest_lt, h.delay_lt, h.sound_lt⟩
  · rw [← Option.some.inj ht]; exact run_timers_wf _ _ h
  · rw [← Option.some.inj ht]; exact h

/-- The range invariant is preserved by an input event. -/
theorem event_wf (e : sapp_event) (s t : Vm) (h : s.wf) (ht : event e s = some t) : t.wf := by
  have hhex : ∀ x, x < 16 → x < 256 := fun x hx => by omega
  simp only [event] at ht
  split_ifs at ht <;> rw [← Option.some.inj ht] <;>
    first
      | exact h
      | exact ⟨h.v_lt, h.memory_lt, h.display_lt, h.pc_lt, h.i_lt, h.stack_lt, h.stack_top_lt,
          h.key_dest_lt, h.delay_lt, h.sound_lt⟩
      | exact ⟨store_lt _ _ _ _ _ h.v_lt (hhex _ (by assumption)), h.memory_lt, h.display_lt,
          h.pc_lt, h.i_lt, h.stack_lt, h.stack_top_lt, h.key_dest_lt, h.delay_lt, h.sound_lt⟩

/-! ## Register arithmetic -/

/-- Claim C8 (evaluation at the failing input): the program `6180 801e` sets
`v1 = 0x80` and shifts it left into `v0`. The bit shifted out is 1, yet after the
frame `vF = 0` (and `v0 = 0`, `v1 = 0x80`): the flag is taken from bit 6
(`& 0x40`), not from bit 7. Conversely `6140 801e` shifts `0x40`, nothing is
shifted out (`v0 = 0x80`), and `vF = 1`. -/
theorem shift_left_flag_misses_bit7 :
    (frame 227 (fun _ => 0) 2 (prepare_program [0x61, 0x80, 0x80, 0x1e] zeroed)).map
      (fun t => (t.v 0, t.v 1, t.v 0xf, t.pc)) = some (0, 0x80, 0, 0x204) ∧
    (frame 227 (fun _ => 0) 2 (prepare_program [0x61, 0x40, 0x80, 0x1e] zeroed)).map
      (fun t => (t.v 0, t.v 1, t.v 0xf, t.pc)) = some (0x80, 0x40, 1, 0x204) := by
  decide

/-- Claim C9: `8xy4` sets `vF` to 1 iff the sum of the prior `vx` and `vy` exceeds
255 and to 0 otherwise, and for `x ≠ 0xF` sets `vx` to the sum mod 256; `x = y`
is not excluded. -/
theorem add_carry (r : Nat) (s : Vm) (hwf : s.wf) (hpc : s.pc + 1 < MEMORY_SIZE)
    (h0 : fetch_n0 s = 8) (h3 : fetch_n3 s = 4) :
    ∃ t, run_vm_step r s = some t ∧
      t.v 0xf = (if s.v (fetch_n1 s) + s.v (fetch_n2 s) > 255 then 1 else 0) ∧
      (fetch_n1 s ≠ 0xf → t.v (fetch_n1 s) = (s.v (fetch_n1 s) + s.v (fetch_n2 s)) % 256) := by
  have hx := hwf.v_lt _ (fetch_n1_lt s)
  have hy := hwf.v_lt _ (fetch_n2_lt s hwf hpc)
  refine ⟨_, run_vm_step_8 r s hpc h0, ?_, ?_⟩
  · simp only [h3, run_vm_case_8, DELAY_v, store, u8]
    simp only [if_true]
    split_ifs <;> omega
  · intro hne
    simp only [h3, run_vm_case_8, DELAY_v, store, u8]
    simp [hne]

/-- Witness for `add_carry`: `8014` with `v0 = 0xFF`, `v1 = 0x02` gives `v0 = 0x01`, `vF = 1`. -/
theorem add_carry_witness :
    (loaded_with [0x80, 0x14] 0 (store (store (fun _ => 0) 0 0xff) 1 0x02) (fun _ => 0)).wf ∧
    ∃ t, run_vm_step 0
        (loaded_with [0x80, 0x14] 0 (store (store (fun _ => 0) 0 0xff) 1 0x02) (fun _ => 0)) =
          some t ∧ t.v 0xf = 1 ∧ t.v 0 = 0x01 := by
  have hwf : (loaded_with [0x80, 0x14] 0 (store (store (fun _ => 0) 0 0xff) 1 0x02)
      (fun _ => 0)).wf :=
    loaded_with_wf _ _ _ _ (by decide) (by decide) (by decide)
      (fun _ _ => (by decide : (0 : Nat) < 256))
  obtain ⟨t, ht, hf, hx⟩ := add_carry 0 _ hwf (by decide) (by decide) (by decide)
  exact ⟨hwf, t, ht, hf.trans (by decide), (hx (by decide)).trans (by decide)⟩

/-- Claim C10: after `8xy1`, `8xy2` or `8xy3`, for every prior `vF` and every
`x`, `y` (`0xF` included), `vF` is 0; and for `x ≠ 0xF`, `vx` is the bitwise OR,
AND or XOR respectively of the prior `vx` and `vy`. -/
theorem bitwise_clears_flag (r : Nat) (s : Vm) (hwf : s.wf) (hpc : s.pc + 1 < MEMORY_SIZE)
    (h0 : fetch_n0 s = 8) (h3 : fetch_n3 s = 1 ∨ fetch_n3 s = 2 ∨ fetch_n3 s = 3) :
    ∃ t, run_vm_step r s = some t ∧
      t.v 0xf = 0 ∧
      (fetch_n1 s ≠ 0xf → t.v (fetch_n1 s) =
        (if fetch_n3 s = 1 then s.v (fetch_n1 s) ||| s.v (fetch_n2 s)
         else if fetch_n3 s = 2 then s.v (fetch_n1 s) &&& s.v (fetch_n2 s)
         else s.v (fetch_n1 s) ^^^ s.v (fetch_n2 s))) := by
  have hx : s.v (fetch_n1 s) < 2 ^ 8 := hwf.v_lt _ (fetch_n1_lt s)
  have hy : s.v (fetch_n2 s) < 2 ^ 8 := hwf.v_lt _ (fetch_n2_lt s hwf hpc)
  have hor := Nat.or_lt_two_pow hx hy
  have hand := Nat.and_lt_two_pow (s.v (fetch_n1 s)) hy
  have hxor := Nat.xor_lt_two_pow hx hy
  refine ⟨_, run_vm_step_8 r s hpc h0, ?_, ?_⟩
  · rcases h3 with h3 | h3 | h3 <;> simp [h3, run_vm_case_8, DELAY_v, store]
  · intro hne
    rcases h3 with h3 | h3 | h3 <;>
      simp only [h3, run_vm_case_8, DELAY_v, store, u8] <;> simp [hne] <;> omega

/-- Witness for `bitwise_clears_flag`: `8011` with `v0 = 0x0F`, `v1 = 0xF0`, `vF = 1` gives
`v0 = 0xFF`, `vF = 0`. -/
theorem bitwise_clears_flag_witness :
    (loaded_with [0x80, 0x11] 0 (store (store (store (fun _ => 0) 0 0x0f) 1 0xf0) 0xf 1)
      (fun _ => 0)).wf ∧
    ∃ t, run_vm_step 0
        (loaded_with [0x80, 0x11] 0 (store (store (store (fun _ => 0) 0 0x0f) 1 0xf0) 0xf 1)
          (fun _ => 0)) = some t ∧ t.v 0xf = 0 ∧ t.v 0 = 0xff := by
  have hwf : (loaded_with [0x80, 0x11] 0 (store (store (store (fun _ => 0) 0 0x0f) 1 0xf0) 0xf 1)
      (fun _ => 0)).wf :=
    loaded_with_wf _ _ _ _ (by decide) (by decide) (by decide)
      (fun _ _ => (by decide : (0 : Nat) < 256))
  obtain ⟨t, ht, hf, hx⟩ := bitwise_clears_flag 0 _ hwf (by decide) (by decide) (by decide)
  exact ⟨hwf, t, ht, hf, (hx (by decide)).trans (by decide)⟩

/-! ## Timers and the fields `DELAY` leaves alone -/

theorem run_timers_frame (t : Int) (s : Vm) :
    run_timers t s = { s with
      timer_micros := (run_timers t s).timer_micros
      delay_timer := (run_timers t s).delay_timer
      sound_timer := (run_timers t s).sound_timer } := by
  simp only [run_timers]; split_ifs <;> rfl

theorem run_timers_timer_micros (t : Int) (s : Vm) :
    (run_timers t s).timer_micros =
      if s.timer_micros - t ≤ 0 then s.timer_micros - t + 16667 else s.timer_micros - t := by
  simp only [run_timers]; split_ifs <;> rfl

theorem DELAY_stack (t : Int) (s : Vm) : (DELAY t s).stack = s.stack := by
  simp only [DELAY]; rw [run_timers_frame]

theorem DELAY_stack_top (t : Int) (s : Vm) : (DELAY t s).stack_top = s.stack_top := by
  simp only [DELAY]; rw [run_timers_frame]

theorem DELAY_keys (t : Int) (s : Vm) : (DELAY t s).keys = s.keys := by
  simp only [DELAY]; rw [run_timers_frame]

theorem DELAY_key_dest (t : Int) (s : Vm) : (DELAY t s).key_dest = s.key_dest := by
  simp only [DELAY]; rw [run_timers_frame]

theorem DELAY_speed_up (t : Int) (s : Vm) : (DELAY t s).speed_up = s.speed_up := by
  simp only [DELAY]; rw [run_timers_frame]

theorem u16_pc_add_two (s : Vm) (hpc : s.pc + 1 < MEMORY_SIZE) : u16 (s.pc + 2) = s.pc + 2 := by
  simp only [MEMORY_SIZE] at hpc
  simp only [u16]; omega

theorem field_of_some {α β : Type} (f : α → β) (o : Option α) (a : α) (b : β)
    (h : o = some a) (hb : o.map f = some b) : f a = b := by
  subst h
  exact Option.some.inj hb

/-! ## The key wait `fx0a` -/

theorem run_vm_step_f (r : Nat) (s : Vm) (hpc : s.pc + 1 < MEMORY_SIZE) (h0 : fetch_n0 s = 0xf) :
    run_vm_step r s = run_vm_case_f (fetch_n1 s) (fetch_n2 s) (fetch_n3 s)
      { s with pc := u16 (s.pc + 2) } := by
  simp only [run_vm_step, if_pos hpc, h0, run_vm_switch]

theorem key_code_to_hex_lt_imp (kc : sapp_keycode) (h : key_code_to_hex kc < 16) :
    kc ≠ sapp_keycode.SAPP_KEYCODE_ESCAPE ∧ kc ≠ sapp_keycode.SAPP_KEYCODE_EQUAL ∧
    kc ≠ sapp_keycode.SAPP_KEYCODE_MINUS := by
  refine ⟨?_, ?_, ?_⟩ <;> rintro rfl <;> revert h <;> decide

/-- Claim C12: a key release with hex value `h < 16` clears `keys[h]` and, in state
`VM_WAIT_FOR_KEY`, sets `v[key_dest] = h` and the state to RUNNING (in any other state,
state and registers are unchanged); a key press with `h < 16` sets `keys[h]` and changes
nothing else; an event whose key maps outside `0..15` leaves keys, registers and state
unchanged. The write to `v[key_dest]` needs `key_dest < 16`, which holds in every
reachable state (`reachable_inv`). -/
theorem event_key (s : Vm) (kc : sapp_keycode) :
    (key_code_to_hex kc < 16 → (s.state = vm_state.VM_WAIT_FOR_KEY → s.key_dest < 16) →
      ∃ t, event ⟨sapp_event_type.SAPP_EVENTTYPE_KEY_UP, kc⟩ s = some t ∧
        t.keys (key_code_to_hex kc) = false ∧
        (∀ k, k ≠ key_code_to_hex kc → t.keys k = s.keys k) ∧
        (s.state = vm_state.VM_WAIT_FOR_KEY →
          t.v s.key_dest = key_code_to_hex kc ∧ (∀ k, k ≠ s.key_dest → t.v k = s.v k) ∧
          t.state = vm_state.VM_RUN) ∧
        (s.state ≠ vm_state.VM_WAIT_FOR_KEY → t.state = s.state ∧ t.v = s.v)) ∧
    (key_code_to_hex kc < 16 →
      event ⟨sapp_event_type.SAPP_EVENTTYPE_KEY_DOWN, kc⟩ s =
        some { s with keys := store s.keys (key_code_to_hex kc) true }) ∧
    (¬ key_code_to_hex kc < 16 → ∀ ty : sapp_event_type,
      ∃ t, event ⟨ty, kc⟩ s = some t ∧ t.keys = s.keys ∧ t.v = s.v ∧ t.state = s.state) := by
  refine ⟨?_, ?_, ?_⟩
  · intro hhex hkd
    by_cases hw : s.state = vm_state.VM_WAIT_FOR_KEY
    · refine ⟨{ s with keys := store s.keys (key_code_to_hex kc) false,
                       v := store s.v s.key_dest (key_code_to_hex kc),
                       state := vm_state.VM_RUN }, ?_, ?_, ?_, ?_, ?_⟩
      · simp [event, hhex, hw, hkd hw]
      · simp [store]
      · intro k hk; simp [store, hk]
      · intro _
        refine ⟨by simp [store], ?_, rfl⟩
        intro k hk; simp [store, hk]
      · intro h; exact absurd hw h
    · refine ⟨{ s with keys := store s.keys (key_code_to_hex kc) false }, ?_, ?_, ?_, ?_, ?_⟩
      · simp [event, hhex, hw]
      · simp [store]
      · intro k hk; simp [store, hk]
      · intro h; exact absurd h hw
      · intro _; exact ⟨rfl, rfl⟩
  · intro hhex
    obtain ⟨h1, h2, h3⟩ := key_code_to_hex_lt_imp kc hhex
    simp [event, hhex, h1, h2, h3]
  · intro hhex ty
    simp only [event]
    split_ifs <;> exact ⟨_, rfl, rfl, rfl, rfl⟩

/-- Witness for `event_key`: releasing `Q` (hex 4) while waiting with `key_dest = 3`. -/
theorem event_key_witness :
    ∃ t, event ⟨sapp_event_type.SAPP_EVENTTYPE_KEY_UP, sapp_keycode.SAPP_KEYCODE_Q⟩
        { zeroed with state := vm_state.VM_WAIT_FOR_KEY, key_dest := 3 } = some t ∧
      t.keys 4 = false ∧ t.v 3 = 4 ∧ t.state = vm_state.VM_RUN := by
  obtain ⟨t, ht, h1, -, h2, -⟩ :=
    (event_key { zeroed with state := vm_state.VM_WAIT_FOR_KEY, key_dest := 3 }
      sapp_keycode.SAPP_KEYCODE_Q).1 (by decide) (fun _ => by decide)
  exact ⟨t, ht, h1, (h2 rfl).1, (h2 rfl).2.2⟩

/-! ## Block transfer and decimal digits -/

/-- The loop of `fx55` from register `ii` for `rem` registers: it returns, changes only
memory, and writes `v[k]` to `memory[i + k]` for `ii ≤ k < ii + rem`. -/
theorem save_loop_spec : ∀ (rem ii : Nat) (s : Vm), s.i + ii + rem ≤ MEMORY_SIZE →
    ∃ t, save_loop rem ii s = some t ∧ t = { s with memory := t.memory } ∧
      ∀ a, t.memory a =
        if s.i + ii ≤ a ∧ a < s.i + ii + rem then s.v (a - s.i) else s.memory a := by
  intro rem
  induction rem with
  | zero =>
    intro ii s _
    refine ⟨s, rfl, rfl, fun a => ?_⟩
    rw [if_neg (by omega)]
  | succ rem ih =>
    intro ii s h
    have hin : s.i + ii < MEMORY_SIZE := by omega
    obtain ⟨t, ht, hframe, hmem⟩ :=
      ih (ii + 1) { s with memory := store s.memory (s.i + ii) (s.v ii) }
        (by show s.i + (ii + 1) + rem ≤ MEMORY_SIZE; omega)
    refine ⟨t, ?_, ?_, ?_⟩
    · simp only [save_loop, if_pos hin]; exact ht
    · rw [hframe]
    · intro a
      rw [hmem a]
      show (if s.i + (ii + 1) ≤ a ∧ a < s.i + (ii + 1) + rem then s.v (a - s.i)
        else store s.memory (s.i + ii) (s.v ii) a) = _
      by_cases h1 : s.i + (ii + 1) ≤ a ∧ a < s.i + (ii + 1) + rem
      · rw [if_pos h1, if_pos (by omega)]
      · rw [if_neg h1]
        simp only [store]
        by_cases h2 : a = s.i + ii
        · rw [if_pos h2, if_pos (by omega)]
          congr 1; omega
        · rw [if_neg h2, if_neg (by omega)]

/-- The loop of `fx65` from register `ii` for `rem` registers: it returns, changes only
the registers, and loads `v[k]` from `memory[i + k]` for `ii ≤ k < ii + rem`. -/
theorem load_loop_spec : ∀ (rem ii : Nat) (s : Vm), s.i + ii + rem ≤ MEMORY_SIZE →
    ∃ t, load_loop rem ii s = some t ∧ t = { s with v := t.v } ∧
      ∀ k, t.v k = if ii ≤ k ∧ k < ii + rem then s.memory (s.i + k) else s.v k := by
  intro rem
  induction rem with
  | zero =>
    intro ii s _
    refine ⟨s, rfl, rfl, fun a => ?_⟩
    rw [if_neg (by omega)]
  | succ rem ih =>
    intro ii s h
    have hin : s.i + ii < MEMORY_SIZE := by omega
    obtain ⟨t, ht, hframe, hv⟩ :=
      ih (ii + 1) { s with v := store s.v ii (s.memory (s.i + ii)) }
        (by show s.i + (ii + 1) + rem ≤ MEMORY_SIZE; omega)
    refine ⟨t, ?_, ?_, ?_⟩
    · simp only [load_loop, if_pos hin]; exact ht
    · rw [hframe]
    · intro k
      rw [hv k]
      show (if ii + 1 ≤ k ∧ k < ii + 1 + rem then s.memory (s.i + k)
        else store s.v ii (s.memory (s.i + ii)) k) = _
      by_cases h1 : ii + 1 ≤ k ∧ k < ii + 1 + rem
      · rw [if_pos h1, if_pos (by omega)]
      · rw [if_neg h1]
        simp only [store]
        by_cases h2 : k = ii
        · rw [if_pos h2, if_pos (by omega), h2]
        · rw [if_neg h2, if_neg (by omega)]

theorem run_vm_case_f_55 (n1 : Nat) (s : Vm) :
    run_vm_case_f n1 5 5 s =
      (save_loop (n1 + 1) 0 s).map fun s1 => DELAY 605 { s1 with i := u16 (s1.i + (n1 + 1)) } :=
  rfl

theorem run_vm_case_f_65 (n1 : Nat) (s : Vm) :
    run_vm_case_f n1 6 5 s =
      (load_loop (n1 + 1) 0 s).map fun s1 => DELAY 605 { s1 with i := u16 (s1.i + (n1 + 1)) } :=
  rfl

/-- What `fx55` does. -/
theorem save_spec (r : Nat) (s : Vm) (hpc : s.pc + 1 < MEMORY_SIZE)
    (h0 : fetch_n0 s = 0xf) (h2 : fetch_n2 s = 5) (h3 : fetch_n3 s = 5)
    (hi : s.i + fetch_n1 s < MEMORY_SIZE) :
    ∃ t, run_vm_step r s = some t ∧
      (∀ k, k ≤ fetch_n1 s → t.memory (s.i + k) = s.v k) ∧
      (∀ a, (a < s.i ∨ s.i + fetch_n1 s < a) → t.memory a = s.memory a) ∧
      t.v = s.v ∧ t.i = s.i + fetch_n1 s + 1 := by
  obtain ⟨t0, ht0, hframe, hmem⟩ := save_loop_spec (fetch_n1 s + 1) 0
    { s with pc := u16 (s.pc + 2) } (by show s.i + 0 + (fetch_n1 s + 1) ≤ MEMORY_SIZE; omega)
  have hv0 : t0.v = s.v := by rw [hframe]
  have hi0 : t0.i = s.i := by rw [hframe]
  have hstep : run_vm_step r s =
      some (DELAY 605 { t0 with i := u16 (t0.i + (fetch_n1 s + 1)) }) := by
    rw [run_vm_step_f r s hpc h0, h2, h3, run_vm_case_f_55, ht0]; rfl
  refine ⟨_, hstep, ?_, ?_, ?_, ?_⟩
  · intro k hk
    rw [DELAY_memory]
    show t0.memory (s.i + k) = s.v k
    rw [hmem]
    show (if s.i + 0 ≤ s.i + k ∧ s.i + k < s.i + 0 + (fetch_n1 s + 1) then s.v (s.i + k - s.i)
      else s.memory (s.i + k)) = _
    rw [if_pos (by omega)]
    congr 1; omega
  · intro a ha
    rw [DELAY_memory]
    show t0.memory a = s.memory a
    rw [hmem]
    show (if s.i + 0 ≤ a ∧ a < s.i + 0 + (fetch_n1 s + 1) then s.v (a - s.i)
      else s.memory a) = _
    rw [if_neg (by omega)]
  · rw [DELAY_v]; exact hv0
  · rw [DELAY_i]
    show u16 (t0.i + (fetch_n1 s + 1)) = _
    simp only [MEMORY_SIZE] at hi
    rw [hi0]; simp only [u16]; omega

/-- What `fx65` does. -/
theorem load_spec (r : Nat) (s : Vm) (hpc : s.pc + 1 < MEMORY_SIZE)
    (h0 : fetch_n0 s = 0xf) (h2 : fetch_n2 s = 6) (h3 : fetch_n3 s = 5)
    (hi : s.i + fetch_n1 s < MEMORY_SIZE) :
    ∃ t, run_vm_step r s = some t ∧
      (∀ k, k ≤ fetch_n1 s → t.v k = s.memory (s.i + k)) ∧
      (∀ k, fetch_n1 s < k → t.v k = s.v k) ∧
      t.memory = s.memory ∧ t.i = s.i + fetch_n1 s + 1 := by
  obtain ⟨t0, ht0, hframe, hv⟩ := load_loop_spec (fetch_n1 s + 1) 0
    { s with pc := u16 (s.pc + 2) } (by show s.i + 0 + (fetch_n1 s + 1) ≤ MEMORY_SIZE; omega)
  have hm0 : t0.memory = s.memory := by rw [hframe]
  have hi0 : t0.i = s.i := by rw [hframe]
  have hstep : run_vm_step r s =
      some (DELAY 605 { t0 with i := u16 (t0.i + (fetch_n1 s + 1)) }) := by
    rw [run_vm_step_f r s hpc h0, h2, h3, run_vm_case_f_65, ht0]; rfl
  refine ⟨_, hstep, ?_, ?_, ?_, ?_⟩
  · intro k hk
    rw [DELAY_v]
    show t0.v k = _
    rw [hv]
    show (if 0 ≤ k ∧ k < 0 + (fetch_n1 s + 1) then s.memory (s.i + k) else s.v k) = _
    rw [if_pos (by omega)]
  · intro k hk
    rw [DELAY_v]
    show t0.v k = _
    rw [hv]
    show (if 0 ≤ k ∧ k < 0 + (fetch_n1 s + 1) then s.memory (s.i + k) else s.v k) = _
    rw [if_neg (by omega)]
  · rw [DELAY_memory]; exact hm0
  · rw [DELAY_i]
    show u16 (t0.i + (fetch_n1 s + 1)) = _
    simp only [MEMORY_SIZE] at hi
    rw [hi0]; simp only [u16]; omega

/-- Claim C19: for `i + x < 4096`, `fx55` writes `memory[i + k] = v[k]` for `k ≤ x`,
leaves every other memory byte and every register unchanged and sets the index register
to `i + x + 1`; `fx65` sets `v[k] = memory[i + k]` for `k ≤ x`, leaves the registers
above `x` and all memory unchanged and sets the index register to `i + x + 1`. After
`fx55`, an `fx65` with the same `x` in any state `u` whose index register is `i` again
and whose memory holds the saved bytes restores `v0..vx`, whatever the registers of `u`
held. -/
theorem block_transfer (r : Nat) (s : Vm) (hpc : s.pc + 1 < MEMORY_SIZE)
    (h0 : fetch_n0 s = 0xf) (hi : s.i + fetch_n1 s < MEMORY_SIZE) :
    (fetch_n2 s = 5 → fetch_n3 s = 5 →
      ∃ t, run_vm_step r s = some t ∧
        (∀ k, k ≤ fetch_n1 s → t.memory (s.i + k) = s.v k) ∧
        (∀ a, (a < s.i ∨ s.i + fetch_n1 s < a) → t.memory a = s.memory a) ∧
        t.v = s.v ∧ t.i = s.i + fetch_n1 s + 1 ∧
        ∀ (r2 : Nat) (u : Vm), u.pc + 1 < MEMORY_SIZE → fetch_n0 u = 0xf →
          fetch_n1 u = fetch_n1 s → fetch_n2 u = 6 → fetch_n3 u = 5 → u.i = s.i →
          (∀ k, k ≤ fetch_n1 s → u.memory (s.i + k) = t.memory (s.i + k)) →
          ∃ w, run_vm_step r2 u = some w ∧ ∀ k, k ≤ fetch_n1 s → w.v k = s.v k) ∧
    (fetch_n2 s = 6 → fetch_n3 s = 5 →
      ∃ t, run_vm_step r s = some t ∧
        (∀ k, k ≤ fetch_n1 s → t.v k = s.memory (s.i + k)) ∧
        (∀ k, fetch_n1 s < k → t.v k = s.v k) ∧
        t.memory = s.memory ∧ t.i = s.i + fetch_n1 s + 1) := by
  refine ⟨fun h2 h3 => ?_, fun h2 h3 => load_spec r s hpc h0 h2 h3 hi⟩
  obtain ⟨t, ht, hmem, hother, hv, hti⟩ := save_spec r s hpc h0 h2 h3 hi
  refine ⟨t, ht, hmem, hother, hv, hti, ?_⟩
  intro r2 u hpcu h0u h1u h2u h3u hiu hmu
  obtain ⟨w, hw, hwv, -, -, -⟩ := load_spec r2 u hpcu h0u h2u h3u (by rw [hiu, h1u]; exact hi)
  refine ⟨w, hw, fun k hk => ?_⟩
  rw [hwv k (by rw [h1u]; exact hk), hiu, hmu k hk, hmem k hk]

/-- Witness for `block_transfer`: `f155` saves `v0 = 0x0a`, `v1 = 0x0b` at `0x202`, and
`f165` loads them back into zeroed registers. -/
theorem block_transfer_witness :
    ∃ t w, run_vm_step 0 (loaded_with [0xf1, 0x55, 0x0a, 0x0b] 0x202
        (store (store (fun _ => 0) 0 0x0a) 1 0x0b) (fun _ => 0)) = some t ∧
      t.memory 0x202 = 0x0a ∧ t.memory 0x203 = 0x0b ∧ t.i = 0x204 ∧
      run_vm_step 0 (loaded_with [0xf1, 0x65, 0x0a, 0x0b] 0x202 (fun _ => 0) (fun _ => 0)) =
        some w ∧
      w.v 0 = 0x0a ∧ w.v 1 = 0x0b := by
  obtain ⟨t, ht, hmem, -, -, hti, hround⟩ :=
    (block_transfer 0 (loaded_with [0xf1, 0x55, 0x0a, 0x0b] 0x202
      (store (store (fun _ => 0) 0 0x0a) 1 0x0b) (fun _ => 0))
      (by decide) (by decide) (by decide)).1 (by decide) (by decide)
  have hx : fetch_n1 (loaded_with [0xf1, 0x55, 0x0a, 0x0b] 0x202
      (store (store (fun _ => 0) 0 0x0a) 1 0x0b) (fun _ => 0)) = 1 := by decide
  obtain ⟨w, hw, hwv⟩ := hround 0
    (loaded_with [0xf1, 0x65, 0x0a, 0x0b] 0x202 (fun _ => 0) (fun _ => 0))
    (by decide) (by decide) (by decide) (by decide) (by decide) (by decide)
    (by
      intro k hk
      rw [hmem k hk]
      rw [hx] at hk
      interval_cases k <;> decide)
  exact ⟨t, w, ht, hmem 0 (by decide), hmem 1 (by decide), hti, hw,
    hwv 0 (by decide), hwv 1 (by decide)⟩

theorem run_vm_case_f_33 (n1 : Nat) (s : Vm) :
    run_vm_case_f n1 3 3 s =
      if s.i + 2 < MEMORY_SIZE then
        some (DELAY 927 { s with
          memory := store (store (store s.memory s.i (u8 (s.v n1 / 100))) (s.i + 1)
            (u8 (s.v n1 / 10 % 10))) (s.i + 2) (u8 (s.v n1 % 10)) })
      else none := rfl

/-- Claim C20: for `i + 2 < 4096`, `fx33` stores `h`, `t`, `u` at `memory[i..i+2]` with
`h ≤ 2`, `t ≤ 9`, `u ≤ 9` and `100 h + 10 t + u = vx`, and leaves every other memory
byte, every register and the index register unchanged. -/
theorem bcd_digits (r : Nat) (s : Vm) (hwf : s.wf) (hpc : s.pc + 1 < MEMORY_SIZE)
    (h0 : fetch_n0 s = 0xf) (h2 : fetch_n2 s = 3) (h3 : fetch_n3 s = 3)
    (hi : s.i + 2 < MEMORY_SIZE) :
    ∃ t, run_vm_step r s = some t ∧
      t.memory s.i ≤ 2 ∧ t.memory (s.i + 1) ≤ 9 ∧ t.memory (s.i + 2) ≤ 9 ∧
      100 * t.memory s.i + 10 * t.memory (s.i + 1) + t.memory (s.i + 2) = s.v (fetch_n1 s) ∧
      (∀ a, a ≠ s.i → a ≠ s.i + 1 → a ≠ s.i + 2 → t.memory a = s.memory a) ∧
      (∀ k, t.v k = s.v k) ∧ t.i = s.i := by
  have hx := hwf.v_lt _ (fetch_n1_lt s)
  have hstep : run_vm_step r s = some (DELAY 927 { s with
      pc := u16 (s.pc + 2)
      memory := store (store (store s.memory s.i (u8 (s.v (fetch_n1 s) / 100))) (s.i + 1)
        (u8 (s.v (fetch_n1 s) / 10 % 10))) (s.i + 2) (u8 (s.v (fetch_n1 s) % 10)) }) := by
    rw [run_vm_step_f r s hpc h0, h2, h3, run_vm_case_f_33]
    exact if_pos hi
  have e0 : (DELAY 927 { s with
      pc := u16 (s.pc + 2)
      memory := store (store (store s.memory s.i (u8 (s.v (fetch_n1 s) / 100))) (s.i + 1)
        (u8 (s.v (fetch_n1 s) / 10 % 10))) (s.i + 2) (u8 (s.v (fetch_n1 s) % 10)) }).memory s.i =
      s.v (fetch_n1 s) / 100 % 256 := by
    simp [DELAY_memory, store, u8]
  have e1 : (DELAY 927 { s with
      pc := u16 (s.pc + 2)
      memory := store (store (store s.memory s.i (u8 (s.v (fetch_n1 s) / 100))) (s.i + 1)
        (u8 (s.v (fetch_n1 s) / 10 % 10))) (s.i + 2) (u8 (s.v (fetch_n1 s) % 10)) }).memory
        (s.i + 1) = s.v (fetch_n1 s) / 10 % 10 % 256 := by
    simp [DELAY_memory, store, u8]
  have e2 : (DELAY 927 { s with
      pc := u16 (s.pc + 2)
      memory := store (store (store s.memory s.i (u8 (s.v (fetch_n1 s) / 100))) (s.i + 1)
        (u8 (s.v (fetch_n1 s) / 10 % 10))) (s.i + 2) (u8 (s.v (fetch_n1 s) % 10)) }).memory
        (s.i + 2) = s.v (fetch_n1 s) % 10 % 256 := by
    simp [DELAY_memory, store, u8]
  refine ⟨_, hstep, ?_, ?_, ?_, ?_, ?_, fun _ => ?_, ?_⟩
  · rw [e0]; omega
  · rw [e1]; omega
  · rw [e2]; omega
  · rw [e0, e1, e2]; omega
  · intro a h1 h2 h3
    simp only [DELAY_memory, store]
    rw [if_neg h3, if_neg h2, if_neg h1]
  · rw [DELAY_v]
  · rw [DELAY_i]

/-- Witness for `bcd_digits`: `f033` with `v0 = 254` stores 2, 5, 4 at `0x300`. -/
theorem bcd_digits_witness :
    (loaded_with [0xf0, 0x33] 0x300 (store (fun _ => 0) 0 254) (fun _ => 0)).wf ∧
    ∃ t, run_vm_step 0 (loaded_with [0xf0, 0x33] 0x300 (store (fun _ => 0) 0 254) (fun _ => 0)) =
        some t ∧
      t.memory 0x300 = 2 ∧ t.memory 0x301 = 5 ∧ t.memory 0x302 = 4 ∧ t.i = 0x300 := by
  have hwf : (loaded_with [0xf0, 0x33] 0x300 (store (fun _ => 0) 0 254) (fun _ => 0)).wf :=
    loaded_with_wf _ _ _ _ (by decide) (by decide) (by decide)
      (fun _ _ => (by decide : (0 : Nat) < 256))
  obtain ⟨t, ht, -, -, -, -, -, -, hi⟩ :=
    bcd_digits 0 _ hwf (by decide) (by decide) (by decide) (by decide) (by decide)
  have ht' : t = (run_vm_step 0
      (loaded_with [0xf0, 0x33] 0x300 (store (fun _ => 0) 0 254) (fun _ => 0))).getD zeroed := by
    rw [ht]; rfl
  refine ⟨hwf, t, ht, ?_, ?_, ?_, hi⟩ <;> rw [ht'] <;> decide

/-! ## The shape of an instruction and the machine invariant -/

theorem step_shape_delay (s u : Vm) (c : Int) (hc : 0 < c) (h1 : u.state = s.state)
    (h2 : u.speed_up = s.speed_up) (h3 : u.micros = s.micros)
    (h4 : u.timer_micros = s.timer_micros) (h5 : u.key_dest = s.key_dest)
    (h6 : u.keys = s.keys) (h7 : s.stack_top ≤ STACK_MAX → u.stack_top ≤ STACK_MAX) :
    step_shape s (DELAY c u) :=
  Or.inr (Or.inr (Or.inr ⟨c, u, hc, rfl, h1, h2, h3, h4, h5, h6, h7⟩))

theorem step_shape_stop (s : Vm) : step_shape s (STOP s) := Or.inl rfl

theorem sprite_loop_frame (x y : Nat) : ∀ (rem yy : Nat) (s t : Vm),
    sprite_loop x y rem yy s = some t → t = { s with v := t.v, display := t.display } := by
  intro rem
  induction rem with
  | zero =>
    intro yy s t ht
    simp only [sprite_loop, Option.some.injEq] at ht
    rw [← ht]
  | succ rem ih =>
    intro yy s t ht
    simp only [sprite_loop] at ht
    split_ifs at ht
    have h := ih _ _ _ ht
    rw [h, sprite_row_frame]

theorem save_loop_frame : ∀ (rem ii : Nat) (s t : Vm),
    save_loop rem ii s = some t → t = { s with memory := t.memory } := by
  intro rem
  induction rem with
  | zero =>
    intro ii s t ht
    simp only [save_loop, Option.some.injEq] at ht
    rw [← ht]
  | succ rem ih =>
    intro ii s t ht
    simp only [save_loop] at ht
    split_ifs at ht
    have h := ih _ _ _ ht
    rw [h]

theorem load_loop_frame : ∀ (rem ii : Nat) (s t : Vm),
    load_loop rem ii s = some t → t = { s with v := t.v } := by
  intro rem
  induction rem with
  | zero =>
    intro ii s t ht
    simp only [load_loop, Option.some.injEq] at ht
    rw [← ht]
  | succ rem ih =>
    intro ii s t ht
    simp only [load_loop] at ht
    split_ifs at ht
    have h := ih _ _ _ ht
    rw [h]

theorem run_vm_case_0_shape (n1 n2 n3 : Nat) (s t : Vm)
    (ht : run_vm_case_0 n1 n2 n3 s = some t) : step_shape s t := by
  simp only [run_vm_case_0] at ht
  split_ifs at ht with _ _ _ _ htop hlt <;> rw [← Option.some.inj ht]
  · exact step_shape_stop s
  · exact step_shape_stop s
  · exact step_shape_delay s _ 109 (by decide) rfl rfl rfl rfl rfl rfl (fun h => h)
  · exact step_shape_stop s
  · refine step_shape_delay s _ 105 (by decide) rfl rfl rfl rfl rfl rfl (fun _ => ?_)
    exact Nat.le_of_lt hlt
  · exact Or.inr (Or.inl rfl)

theorem run_vm_case_2_shape (n1 n2 n3 : Nat) (s : Vm) :
    step_shape s (run_vm_case_2 n1 n2 n3 s) := by
  simp only [run_vm_case_2]
  split_ifs with h
  · exact step_shape_stop s
  · refine step_shape_delay s _ 105 (by decide) rfl rfl rfl rfl rfl rfl (fun _ => ?_)
    show u8 (s.stack_top + 1) ≤ STACK_MAX
    simp only [STACK_MAX, u8] at h ⊢
    omega

theorem run_vm_case_8_shape (n1 n2 n3 : Nat) (s : Vm) :
    step_shape s (run_vm_case_8 n1 n2 n3 s) := by
  simp only [run_vm_case_8]
  split <;> first
    | exact step_shape_stop s
    | exact step_shape_delay s _ 200 (by decide) rfl rfl rfl rfl rfl rfl (fun h => h)

theorem run_vm_case_d_shape (n1 n2 n3 : Nat) (s t : Vm)
    (ht : run_vm_case_d n1 n2 n3 s = some t) : step_shape s t := by
  simp only [run_vm_case_d, Option.map_eq_some'] at ht
  obtain ⟨t0, ht0, rfl⟩ := ht
  have h := sprite_loop_frame _ _ _ _ _ _ ht0
  refine step_shape_delay s _ 22734 (by decide) ?_ ?_ ?_ ?_ ?_ ?_ ?_ <;>
    first
      | (intro hs; show t0.stack_top ≤ STACK_MAX; rw [h]; exact hs)
      | (show t0.state = _; rw [h])
      | (show t0.speed_up = _; rw [h])
      | (show t0.micros = _; rw [h])
      | (show t0.timer_micros = _; rw [h])
      | (show t0.key_dest = _; rw [h])
      | (show t0.keys = _; rw [h])

theorem run_vm_case_e_shape (n1 n2 n3 : Nat) (s t : Vm)
    (ht : run_vm_case_e n1 n2 n3 s = some t) : step_shape s t := by
  simp only [run_vm_case_e] at ht
  split_ifs at ht <;> rw [← Option.some.inj ht] <;>
    first
      | exact step_shape_stop s
      | exact step_shape_delay s _ 73 (by decide) rfl rfl rfl rfl rfl rfl (fun h => h)

theorem run_vm_case_f_shape (n1 n2 n3 : Nat) (s t : Vm) (h1 : n1 < 16)
    (ht : run_vm_case_f n1 n2 n3 s = some t) : step_shape s t := by
  unfold run_vm_case_f at ht
  by_cases c07 : nn n2 n3 = 0x07
  · rw [if_pos c07] at ht
    rw [← Option.some.inj ht]
    exact step_shape_delay s _ 45 (by decide) rfl rfl rfl rfl rfl rfl (fun h => h)
  rw [if_neg c07] at ht
  by_cases c0a : nn n2 n3 = 0x0a
  · rw [if_pos c0a] at ht
    rw [← Option.some.inj ht]
    exact Or.inr (Or.inr (Or.inl ⟨n1, h1, rfl⟩))
  rw [if_neg c0a] at ht
  by_cases c15 : nn n2 n3 = 0x15
  · rw [if_pos c15] at ht
    rw [← Option.some.inj ht]
    exact step_shape_delay s _ 45 (by decide) rfl rfl rfl rfl rfl rfl (fun h => h)
  rw [if_neg c15] at ht
  by_cases c18 : nn n2 n3 = 0x18
  · rw [if_pos c18] at ht
    rw [← Option.some.inj ht]
    exact step_shape_delay s _ 45 (by decide) rfl rfl rfl rfl rfl rfl (fun h => h)
  rw [if_neg c18] at ht
  by_cases c1e : nn n2 n3 = 0x1e
  · rw [if_pos c1e] at ht
    rw [← Option.some.inj ht]
    exact step_shape_delay s _ 86 (by decide) rfl rfl rfl rfl rfl rfl (fun h => h)
  rw [if_neg c1e] at ht
  by_cases c29 : nn n2 n3 = 0x29
  · rw [if_pos c29] at ht
    rw [← Option.some.inj ht]
    exact step_shape_delay s _ 91 (by decide) rfl rfl rfl rfl rfl rfl (fun h => h)
  rw [if_neg c29] at ht
  by_cases c33 : nn n2 n3 = 0x33
  · rw [if_pos c33] at ht
    by_cases hin : s.i + 2 < MEMORY_SIZE
    · rw [if_pos hin] at ht
      rw [← Option.some.inj ht]
      exact step_shape_delay s _ 927 (by decide) rfl rfl rfl rfl rfl rfl (fun h => h)
    · rw [if_neg hin] at ht
      exact absurd ht (by simp)
  rw [if_neg c33] at ht
  by_cases c55 : nn n2 n3 = 0x55
  · rw [if_pos c55, Option.map_eq_some'] at ht
    obtain ⟨t0, ht0, rfl⟩ := ht
    have h := save_loop_frame _ _ _ _ ht0
    refine step_shape_delay s _ 605 (by decide) ?_ ?_ ?_ ?_ ?_ ?_ ?_ <;>
      first
        | (intro hs; show t0.stack_top ≤ STACK_MAX; rw [h]; exact hs)
        | (show t0.state = _; rw [h])
        | (show t0.speed_up = _; rw [h])
        | (show t0.micros = _; rw [h])
        | (show t0.timer_micros = _; rw [h])
        | (show t0.key_dest = _; rw [h])
        | (show t0.keys = _; rw [h])
  rw [if_neg c55] at ht
  by_cases c65 : nn n2 n3 = 0x65
  · rw [if_pos c65, Option.map_eq_some'] at ht
    obtain ⟨t0, ht0, rfl⟩ := ht
    have h := load_loop_frame _ _ _ _ ht0
    refine step_shape_delay s _ 605 (by decide) ?_ ?_ ?_ ?_ ?_ ?_ ?_ <;>
      first
        | (intro hs; show t0.stack_top ≤ STACK_MAX; rw [h]; exact hs)
        | (show t0.state = _; rw [h])
        | (show t0.speed_up = _; rw [h])
        | (show t0.micros = _; rw [h])
        | (show t0.timer_micros = _; rw [h])
        | (show t0.key_dest = _; rw [h])
        | (show t0.keys = _; rw [h])
  rw [if_neg c65] at ht
  rw [← Option.some.inj ht]
  exact step_shape_stop s

theorem step_shape_skip (s : Vm) (c : Int) (hc : 0 < c) (p : Prop) [Decidable p] :
    step_shape s (DELAY c (if p then { s with pc := u16 (s.pc + 2) } else s)) := by
  split_ifs <;> exact step_shape_delay s _ c hc rfl rfl rfl rfl rfl rfl (fun h => h)

set_option maxHeartbeats 1000000 in
theorem run_vm_switch_shape (r n0 n1 n2 n3 : Nat) (s t : Vm) (h1 : n1 < 16)
    (ht : run_vm_switch r n0 n1 n2 n3 s = some t) : step_shape s t := by
  simp only [run_vm_switch] at ht
  split at ht
  · exact run_vm_case_0_shape _ _ _ _ _ ht
  · rw [← Option.some.inj ht]
    exact step_shape_delay s _ 105 (by decide) rfl rfl rfl rfl rfl rfl (fun h => h)
  · rw [← Option.some.inj ht]
    exact run_vm_case_2_shape _ _ _ _
  · rw [← Option.some.inj ht]
    exact step_shape_skip s 55 (by decide) _
  · rw [← Option.some.inj ht]
    exact step_shape_skip s 55 (by decide) _
  · split_ifs at ht <;> rw [← Option.some.inj ht] <;>
      first
        | exact step_shape_stop s
        | exact step_shape_delay s _ 73 (by decide) rfl rfl rfl rfl rfl rfl (fun h => h)
  · rw [← Option.some.inj ht]
    exact step_shape_delay s _ 27 (by decide) rfl rfl rfl rfl rfl rfl (fun h => h)
  · rw [← Option.some.inj ht]
    exact step_shape_delay s _ 45 (by decide) rfl rfl rfl rfl rfl rfl (fun h => h)
  · rw [← Option.some.inj ht]
    exact run_vm_case_8_shape _ _ _ _
  · split_ifs at ht <;> rw [← Option.some.inj ht] <;>
      first
        | exact step_shape_stop s
        | exact step_shape_delay s _ 73 (by decide) rfl rfl rfl rfl rfl rfl (fun h => h)
  · rw [← Option.some.inj ht]
    exact step_shape_delay s _ 55 (by decide) rfl rfl rfl rfl rfl rfl (fun h => h)
  · rw [← Option.some.inj ht]
    exact step_shape_delay s _ 105 (by decide) rfl rfl rfl rfl rfl rfl (fun h => h)
  · rw [← Option.some.inj ht]
    exact step_shape_delay s _ 164 (by decide) rfl rfl rfl rfl rfl rfl (fun h => h)
  · exact run_vm_case_d_shape _ _ _ _ _ ht
  · exact run_vm_case_e_shape _ _ _ _ _ ht
  · exact run_vm_case_f_shape _ _ _ _ _ h1 ht
  · rw [← Option.some.inj ht]
    exact Or.inr (Or.inl rfl)

/-- Every instruction that returns does so in one of the four shapes, and its fetch was
in bounds. -/
theorem run_vm_step_shape (r : Nat) (s t : Vm) (ht : run_vm_step r s = some t) :
    s.pc + 1 < MEMORY_SIZE ∧ step_shape { s with pc := u16 (s.pc + 2) } t := by
  simp only [run_vm_step] at ht
  split_ifs at ht with hpc
  exact ⟨hpc, run_vm_switch_shape _ _ _ _ _ _ t (fetch_n1_lt s) ht⟩

theorem run_timers_inv (c : Int) (s : Vm) (hc : 0 ≤ c) (h : s.inv) : (run_timers c s).inv := by
  refine ⟨run_timers_wf c s h.wf, ?_, ?_, ?_, ?_, ?_⟩
  · rw [run_timers_frame]; exact h.stack_top_le
  · rw [run_timers_frame]; exact h.key_dest_lt
  · rw [run_timers_frame]; exact h.speed_up_nonneg
  · rw [run_timers_frame]; exact h.speed_up_le
  · have := h.timer_micros_le
    rw [run_timers_timer_micros]
    split_ifs <;> omega

theorem step_shape_inv (s t : Vm) (h : s.inv) (hm : 0 < s.micros) (ht : t.wf)
    (hshape : step_shape s t) : t.inv := by
  rcases hshape with rfl | rfl | ⟨n1, h1, rfl⟩ | ⟨c, u, hc, rfl, -, hsp, -, htm, hkd, -, hst⟩
  · exact ⟨ht, h.stack_top_le, h.key_dest_lt, h.speed_up_nonneg, h.speed_up_le,
      h.timer_micros_le⟩
  · exact h
  · have hr : (run_timers s.micros
        { s with key_dest := n1, state := vm_state.VM_WAIT_FOR_KEY }).inv :=
      run_timers_inv _ _ (le_of_lt hm)
        ⟨⟨h.wf.v_lt, h.wf.memory_lt, h.wf.display_lt, h.wf.pc_lt, h.wf.i_lt, h.wf.stack_lt,
          h.wf.stack_top_lt, by show n1 < 256; omega, h.wf.delay_lt, h.wf.sound_lt⟩,
          h.stack_top_le, h1, h.speed_up_nonneg, h.speed_up_le, h.timer_micros_le⟩
    exact ⟨ht, hr.stack_top_le, hr.key_dest_lt, hr.speed_up_nonneg, hr.speed_up_le,
      hr.timer_micros_le⟩
  · refine ⟨ht, ?_, ?_, ?_, ?_, ?_⟩
    · simp only [DELAY]; rw [run_timers_frame]; exact hst h.stack_top_le
    · simp only [DELAY]; rw [run_timers_frame]; show u.key_dest < 16; rw [hkd]; exact h.key_dest_lt
    · simp only [DELAY]; rw [run_timers_frame]; show 0 ≤ u.speed_up; rw [hsp]
      exact h.speed_up_nonneg
    · simp only [DELAY]; rw [run_timers_frame]; show u.speed_up ≤ 7; rw [hsp]
      exact h.speed_up_le
    · have := h.timer_micros_le
      simp only [DELAY]
      rw [run_timers_timer_micros]
      show (if u.timer_micros - c ≤ 0 then u.timer_micros - c + 16667 else u.timer_micros - c)
        ≤ 16667
      rw [htm]
      split_ifs <;> omega

theorem run_vm_step_inv (r : Nat) (s t : Vm) (h : s.inv) (hm : 0 < s.micros)
    (ht : run_vm_step r s = some t) : t.inv := by
  refine step_shape_inv { s with pc := u16 (s.pc + 2) } t ?_ hm
    (run_vm_step_wf r s t h.wf ht) (run_vm_step_shape r s t ht).2
  exact ⟨with_pc_wf s h.wf _ (u16_lt _), h.stack_top_le, h.key_dest_lt, h.speed_up_nonneg,
    h.speed_up_le, h.timer_micros_le⟩

theorem run_vm_loop_inv (rnd : Nat → Nat) : ∀ (fuel k : Nat) (s t : Vm), s.inv →
    run_vm_loop rnd fuel k s = some t → t.inv := by
  intro fuel
  induction fuel with
  | zero =>
    intro k s t h ht
    simp only [run_vm_loop] at ht
    split_ifs at ht
    rw [← Option.some.inj ht]; exact h
  | succ fuel ih =>
    intro k s t h ht
    simp only [run_vm_loop] at ht
    split_ifs at ht with hm
    · rw [Option.bind_eq_some] at ht
      obtain ⟨s1, hs1, ht1⟩ := ht
      exact ih _ _ _ (run_vm_step_inv _ _ _ h hm hs1) ht1
    · rw [← Option.some.inj ht]; exact h

theorem frame_inv (elapsed : Int) (rnd : Nat → Nat) (fuel : Nat) (s t : Vm) (h : s.inv)
    (he : 0 ≤ elapsed) (ht : frame elapsed rnd fuel s = some t) : t.inv := by
  have hwf := frame_wf elapsed rnd fuel s t h.wf ht
  simp only [frame] at ht
  split_ifs at ht
  · rw [← Option.some.inj ht] at hwf ⊢
    exact ⟨hwf, h.stack_top_le, h.key_dest_lt, h.speed_up_nonneg, h.speed_up_le,
      h.timer_micros_le⟩
  · simp only [run_vm] at ht
    refine run_vm_loop_inv rnd fuel 0 _ t ?_ ht
    exact ⟨⟨h.wf.v_lt, h.wf.memory_lt, h.wf.display_lt, h.wf.pc_lt, h.wf.i_lt, h.wf.stack_lt,
      h.wf.stack_top_lt, h.wf.key_dest_lt, h.wf.delay_lt, h.wf.sound_lt⟩,
      h.stack_top_le, h.key_dest_lt, h.speed_up_nonneg, h.speed_up_le, h.timer_micros_le⟩
  · rw [← Option.some.inj ht]
    have := h.speed_up_nonneg
    exact run_timers_inv _ _ (by positivity) h
  · rw [← Option.some.inj ht]; exact h

theorem event_inv (e : sapp_event) (s t : Vm) (h : s.inv) (ht : event e s = some t) :
    t.inv := by
  have hwf := event_wf e s t h.wf ht
  have h1 := h.speed_up_nonneg
  have h2 := h.speed_up_le
  simp only [event] at ht
  split_ifs at ht <;> rw [← Option.some.inj ht] at hwf ⊢ <;>
    first
      | exact h
      | exact ⟨hwf, h.stack_top_le, h.key_dest_lt, h.speed_up_nonneg, h.speed_up_le,
          h.timer_micros_le⟩
      | exact ⟨hwf, h.stack_top_le, h.key_dest_lt, by show 0 ≤ s.speed_up + 1; omega,
          by show s.speed_up + 1 ≤ 7; omega, h.timer_micros_le⟩
      | exact ⟨hwf, h.stack_top_le, h.key_dest_lt, by show 0 ≤ s.speed_up - 1; omega,
          by show s.speed_up - 1 ≤ 7; omega, h.timer_micros_le⟩

theorem prepare_program_inv (program_data : List Nat) (s : Vm)
    (hs : s.inv ∨ program_data.length ≤ MEMORY_SIZE - PROGRAM_OFFSET)
    (hp : ∀ b ∈ program_data, b < 256) : (prepare_program program_data s).inv := by
  by_cases h : program_data.length > MEMORY_SIZE - PROGRAM_OFFSET
  · rcases hs with hs | hs
    · have hwf := prepare_program_wf program_data s hs.wf hp
      simp only [prepare_program, if_pos h] at hwf ⊢
      exact ⟨hwf, hs.stack_top_le, hs.key_dest_lt, hs.speed_up_nonneg, hs.speed_up_le,
        hs.timer_micros_le⟩
    · omega
  · have hwf := prepare_program_wf program_data zeroed zeroed_wf hp
    simp only [prepare_program, if_neg h] at hwf ⊢
    exact ⟨hwf, (by decide : (0 : Nat) ≤ 16), (by decide : (0 : Nat) < 16),
      (by decide : (0 : Int) ≤ 0), (by decide : (0 : Int) ≤ 7), (by decide : (0 : Int) ≤ 16667)⟩

/-- Every reachable state satisfies the invariant. -/
theorem reachable_inv (s : Vm) (h : reachable s) : s.inv := by
  induction h with
  | by_load program_data s hsize hp => exact prepare_program_inv program_data s (Or.inr hsize) hp
  | by_reload program_data s _ hp ih => exact prepare_program_inv program_data s (Or.inl ih) hp
  | by_frame elapsed rnd fuel s t _ he ht ih => exact frame_inv elapsed rnd fuel s t ih he ht
  | by_event e s t _ ht ih => exact event_inv e s t ih ht

/-! ## Subroutine call and return -/

theorem nnn_eq (n1 n2 n3 : Nat) (h2 : n2 < 16) (h3 : n3 < 16) :
    nnn n1 n2 n3 = n1 * 256 + n2 * 16 + n3 := by
  have e1 : n1 <<< 8 ||| n2 <<< 4 = 2 ^ 4 * (n1 * 16 + n2) := by
    have h := Nat.mul_add_lt_is_or (i := 8) (b := n2 <<< 4)
      (by rw [Nat.shiftLeft_eq]; norm_num; omega) n1
    rw [Nat.shiftLeft_eq, Nat.shiftLeft_eq] at *
    rw [Nat.mul_comm n1 (2 ^ 8), ← h]
    norm_num; omega
  have h := Nat.mul_add_lt_is_or (i := 4) (b := n3) (by norm_num; omega) (n1 * 16 + n2)
  simp only [nnn]
  rw [e1, ← h]
  norm_num; omega

theorem run_vm_step_2 (r : Nat) (s : Vm) (hpc : s.pc + 1 < MEMORY_SIZE) (h0 : fetch_n0 s = 2) :
    run_vm_step r s = some (run_vm_case_2 (fetch_n1 s) (fetch_n2 s) (fetch_n3 s)
      { s with pc := u16 (s.pc + 2) }) := by
  simp only [run_vm_step, if_pos hpc, h0, run_vm_switch]

theorem run_vm_step_0 (r : Nat) (s : Vm) (hpc : s.pc + 1 < MEMORY_SIZE) (h0 : fetch_n0 s = 0) :
    run_vm_step r s = run_vm_case_0 (fetch_n1 s) (fetch_n2 s) (fetch_n3 s)
      { s with pc := u16 (s.pc + 2) } := by
  simp only [run_vm_step, if_pos hpc, h0, run_vm_switch]

/-- What `2nnn` does when the stack has room. -/
theorem call_spec (r : Nat) (s : Vm) (hpc : s.pc + 1 < MEMORY_SIZE) (h0 : fetch_n0 s = 2)
    (htop : s.stack_top < 16) :
    ∃ t, run_vm_step r s = some t ∧ t.stack s.stack_top = s.pc + 2 ∧
      (∀ k, k ≠ s.stack_top → t.stack k = s.stack k) ∧ t.stack_top = s.stack_top + 1 ∧
      t.pc = u16 (nnn (fetch_n1 s) (fetch_n2 s) (fetch_n3 s)) ∧ t.state = s.state := by
  have hno : ¬ s.stack_top ≥ STACK_MAX := by simp only [STACK_MAX]; omega
  have hstep : run_vm_step r s = some (DELAY 105 { s with
      stack := store s.stack s.stack_top (u16 (s.pc + 2))
      stack_top := u8 (s.stack_top + 1)
      pc := u16 (nnn (fetch_n1 s) (fetch_n2 s) (fetch_n3 s)) }) := by
    rw [run_vm_step_2 r s hpc h0]
    simp only [run_vm_case_2]
    rw [if_neg hno]
  refine ⟨_, hstep, ?_, ?_, ?_, ?_, ?_⟩
  · rw [DELAY_stack]
    show store s.stack s.stack_top (u16 (s.pc + 2)) s.stack_top = _
    simp only [store, if_true, u16_pc_add_two s hpc]
  · intro k hk
    rw [DELAY_stack]
    show store s.stack s.stack_top (u16 (s.pc + 2)) k = _
    simp only [store, if_neg hk]
  · rw [DELAY_stack_top]
    show u8 (s.stack_top + 1) = _
    simp only [u8]; omega
  · rw [DELAY_pc]
  · rw [DELAY_state]

/-- What `00ee` does on a non-empty stack. -/
theorem return_spec (r : Nat) (s : Vm) (hpc : s.pc + 1 < MEMORY_SIZE)
    (h0 : fetch_n0 s = 0) (h1 : fetch_n1 s = 0) (h2 : fetch_n2 s = 0xe) (h3 : fetch_n3 s = 0xe)
    (hpos : 0 < s.stack_top) (hle : s.stack_top ≤ 16) :
    ∃ t, run_vm_step r s = some t ∧ t.stack_top = s.stack_top - 1 ∧
      t.pc = s.stack (s.stack_top - 1) ∧ t.state = s.state ∧ t.stack = s.stack := by
  have hu : u8 (s.stack_top - 1) = s.stack_top - 1 := by simp only [u8]; omega
  have hstep : run_vm_step r s = some (DELAY 105 { s with
      stack_top := s.stack_top - 1, pc := s.stack (s.stack_top - 1) }) := by
    rw [run_vm_step_0 r s hpc h0, h1, h2, h3]
    simp only [run_vm_case_0, hu]
    have hne : ¬ s.stack_top = 0 := by omega
    have hlt : s.stack_top - 1 < STACK_MAX := by simp only [STACK_MAX]; omega
    simp [hne, hlt]
  exact ⟨_, hstep, by rw [DELAY_stack_top], by rw [DELAY_pc], by rw [DELAY_state],
    by rw [DELAY_stack]⟩

/-- Claim C13: `2nnn` at address `a` with `stack_top < 16` stores `a + 2` at
`stack[stack_top]`, increments `stack_top` and sets `pc = nnn`; with `stack_top ≥ 16` it
pushes nothing and stops the machine. `stack_top ≤ 16` in every state reachable from a
load. The program `2200` calls itself: 16 nested calls from the empty stack succeed, the
17th stops the machine. -/
theorem call_pushes (r : Nat) (s : Vm) (hwf : s.wf) (hpc : s.pc + 1 < MEMORY_SIZE)
    (h0 : fetch_n0 s = 2) :
    (s.stack_top < 16 →
      ∃ t, run_vm_step r s = some t ∧ t.stack s.stack_top = s.pc + 2 ∧
        (∀ k, k ≠ s.stack_top → t.stack k = s.stack k) ∧ t.stack_top = s.stack_top + 1 ∧
        t.pc = fetch_n1 s * 256 + fetch_n2 s * 16 + fetch_n3 s ∧ t.state = s.state) ∧
    (16 ≤ s.stack_top →
      ∃ t, run_vm_step r s = some t ∧ t.state = vm_state.VM_STOPPED ∧ t.stack = s.stack ∧
        t.stack_top = s.stack_top) ∧
    (∀ u, reachable u → u.stack_top ≤ 16) ∧
    (run_vm 1680 (fun _ => 0) 16 (prepare_program [0x22, 0x00] zeroed)).map
      (fun t => (t.state, t.stack_top, t.pc)) = some (vm_state.VM_RUN, 16, 0x200) ∧
    (run_vm 1681 (fun _ => 0) 17 (prepare_program [0x22, 0x00] zeroed)).map
      (fun t => (t.state, t.stack_top)) = some (vm_state.VM_STOPPED, 16) := by
  refine ⟨fun htop => ?_, fun htop => ?_, fun u hu => (reachable_inv u hu).stack_top_le,
    by decide, by decide⟩
  · obtain ⟨t, ht, h1, h2, h3, h4, h5⟩ := call_spec r s hpc h0 htop
    refine ⟨t, ht, h1, h2, h3, ?_, h5⟩
    have hn2 := fetch_n2_lt s hwf hpc
    have hn1 := fetch_n1_lt s
    have hn3 := fetch_n3_lt s
    rw [h4, nnn_eq _ _ _ hn2 hn3]
    simp only [u16]; omega
  · have hge : s.stack_top ≥ STACK_MAX := htop
    refine ⟨STOP { s with pc := u16 (s.pc + 2) }, ?_, rfl, rfl, rfl⟩
    rw [run_vm_step_2 r s hpc h0]
    simp only [run_vm_case_2]
    rw [if_pos hge]

/-- Witness for `call_pushes`: `2345` at `0x200` on the empty stack. -/
theorem call_pushes_witness :
    (loaded_with [0x23, 0x45] 0 (fun _ => 0) (fun _ => 0)).wf ∧
    ∃ t, run_vm_step 0 (loaded_with [0x23, 0x45] 0 (fun _ => 0) (fun _ => 0)) = some t ∧
      t.stack 0 = 0x202 ∧ t.stack_top = 1 ∧ t.pc = 0x345 := by
  have hwf : (loaded_with [0x23, 0x45] 0 (fun _ => 0) (fun _ => 0)).wf :=
    loaded_with_wf _ _ _ _ (by decide) (by decide) (fun _ _ => (by decide : (0 : Nat) < 256))
      (fun _ _ => (by decide : (0 : Nat) < 256))
  obtain ⟨t, ht, h1, -, h2, h3, -⟩ :=
    (call_pushes 0 _ hwf (by decide) (by decide)).1 (by decide)
  exact ⟨hwf, t, ht, h1, h2, h3.trans (by decide)⟩

/-- Claim C14: `00ee` with `stack_top = 0` stops the machine; with `0 < stack_top ≤ 16`
it decrements `stack_top` and sets `pc` to the popped entry. If `s` is the state right
after a call `2nnn` executed at address `a` in `c`, then `00ee` in `s` leaves `pc = a + 2`
and `stack_top` as it was in `c`. -/
theorem return_pops (r : Nat) (s : Vm) (hpc : s.pc + 1 < MEMORY_SIZE)
    (h0 : fetch_n0 s = 0) (h1 : fetch_n1 s = 0) (h2 : fetch_n2 s = 0xe) (h3 : fetch_n3 s = 0xe) :
    (s.stack_top = 0 → ∃ t, run_vm_step r s = some t ∧ t.state = vm_state.VM_STOPPED) ∧
    (0 < s.stack_top → s.stack_top ≤ 16 →
      ∃ t, run_vm_step r s = some t ∧ t.stack_top = s.stack_top - 1 ∧
        t.pc = s.stack (s.stack_top - 1) ∧ t.state = s.state ∧ t.stack = s.stack) ∧
    (∀ (r0 : Nat) (c : Vm), c.pc + 1 < MEMORY_SIZE → fetch_n0 c = 2 → c.stack_top < 16 →
      run_vm_step r0 c = some s →
      ∃ t, run_vm_step r s = some t ∧ t.pc = c.pc + 2 ∧ t.stack_top = c.stack_top) := by
  refine ⟨fun htop => ?_, fun hpos hle => return_spec r s hpc h0 h1 h2 h3 hpos hle, ?_⟩
  · refine ⟨STOP { s with pc := u16 (s.pc + 2) }, ?_, rfl⟩
    rw [run_vm_step_0 r s hpc h0, h1, h2, h3]
    simp [run_vm_case_0, htop]
  · intro r0 c hpcc h0c htopc hcs
    obtain ⟨s', hs', hst, -, htop', -, -⟩ := call_spec r0 c hpcc h0c htopc
    have e : s' = s := Option.some.inj (hs'.symm.trans hcs)
    rw [e] at hst htop'
    obtain ⟨t, ht, ht1, ht2, -, -⟩ :=
      return_spec r s hpc h0 h1 h2 h3 (by omega) (by omega)
    refine ⟨t, ht, ?_, ?_⟩
    · rw [ht2, htop']
      show s.stack (c.stack_top + 1 - 1) = _
      rw [Nat.add_sub_cancel, hst]
    · rw [ht1, htop']; omega

/-- Witness for `return_pops`: `00ee` with one entry `0x300` on the stack. -/
theorem return_pops_witness :
    ∃ t, run_vm_step 0
        { loaded_with [0x00, 0xee] 0 (fun _ => 0) (fun _ => 0) with
          stack_top := 1, stack := store (fun _ => 0) 0 0x300 } = some t ∧
      t.stack_top = 0 ∧ t.pc = 0x300 := by
  obtain ⟨t, ht, h1, h2, -, -⟩ :=
    (return_pops 0
      { loaded_with [0x00, 0xee] 0 (fun _ => 0) (fun _ => 0) with
        stack_top := 1, stack := store (fun _ => 0) 0 0x300 }
      (by decide) (by decide) (by decide) (by decide) (by decide)).2.1 (by decide) (by decide)
  exact ⟨t, ht, h1, h2⟩

/-! ## Instructions that do not write a timer never raise one -/

theorem prepare_program_of_gt (program_data : List Nat) (s : Vm)
    (h : program_data.length > MEMORY_SIZE - PROGRAM_OFFSET) :
    prepare_program program_data s = { s with state := vm_state.VM_INIT } := by
  simp only [prepare_program, if_pos h]

/-! ## Timer cadence -/

/-- Claim C16, amended: `prepare_program` with a program larger than 3584 bytes, in
any state (RUNNING and `VM_WAIT_FOR_KEY` included), sets the state to `VM_INIT`, not
to STOPPED, and changes nothing else. -/
theorem oversized_load_gives_init (program_data : List Nat) (s : Vm)
    (hsize : 3584 < program_data.length) :
    prepare_program program_data s = { s with state := vm_state.VM_INIT } ∧
    (prepare_program program_data s).state = vm_state.VM_INIT ∧
    (prepare_program program_data s).state ≠ vm_state.VM_STOPPED := by
  have h : program_data.length > MEMORY_SIZE - PROGRAM_OFFSET := by
    simp [MEMORY_SIZE, PROGRAM_OFFSET]; omega
  have e : prepare_program program_data s = { s with state := vm_state.VM_INIT } := by
    simp only [prepare_program, if_pos h]
  refine ⟨e, ?_, ?_⟩
  · rw [e]
  · rw [e]; exact fun h => vm_state.noConfusion h

/-- Witness for `oversized_load_gives_init`: 3585 bytes offered to a RUNNING machine. -/
theorem oversized_load_gives_init_witness :
    3584 < (List.replicate 3585 0).length ∧
    (prepare_program [0x12, 0x00] zeroed).state = vm_state.VM_RUN ∧
    (prepare_program (List.replicate 3585 0) (prepare_program [0x12, 0x00] zeroed)).state =
      vm_state.VM_INIT :=
  ⟨by rw [List.length_replicate]; decide, by decide,
    (oversized_load_gives_init (List.replicate 3585 0) (prepare_program [0x12, 0x00] zeroed)
      (by rw [List.length_replicate]; decide)).2.1⟩

/-- Claim C16 as stated fails: a RUNNING machine that is offered 3585 bytes ends in
state `VM_INIT`, which is not STOPPED. -/
theorem oversized_load_not_stopped :
    (prepare_program [0x12, 0x00] zeroed).state = vm_state.VM_RUN ∧
    (List.replicate 3585 0).length = 3585 ∧
    (prepare_program (List.replicate 3585 0) (prepare_program [0x12, 0x00] zeroed)).state ≠
      vm_state.VM_STOPPED ∧
    (prepare_program (List.replicate 3585 0) (prepare_program [0x12, 0x00] zeroed)).state =
      vm_state.VM_INIT := by
  have h : (List.replicate 3585 0).length > MEMORY_SIZE - PROGRAM_OFFSET := by
    rw [List.length_replicate]; decide
  have e : prepare_program (List.replicate 3585 0) (prepare_program [0x12, 0x00] zeroed) =
      { prepare_program [0x12, 0x00] zeroed with state := vm_state.VM_INIT } := by
    simp only [prepare_program, if_pos h]
  refine ⟨by decide, List.length_replicate _ _, ?_, ?_⟩
  · rw [e]; exact fun h => vm_state.noConfusion h
  · rw [e]

/-! ## The stopped machine -/

/-- Claim C17, amended: STOPPED is absorbing for frames and key events, and for nothing
else. In state STOPPED a frame (any elapsed time, speed and fuel) returns the machine
unchanged, and every event leaves the state STOPPED and `pc`, index register, registers,
stack, `stack_top`, memory, display and both timers unchanged. Every call of
`prepare_program` leaves STOPPED: with at most 3584 bytes the state becomes RUNNING,
with more the state becomes `VM_INIT` and nothing else changes. -/
theorem stopped_absorbs_frames_and_keys (s : Vm) (hs : s.state = vm_state.VM_STOPPED)
    (elapsed : Int) (rnd : Nat → Nat) (fuel : Nat) (e : sapp_event) (program_data : List Nat) :
    frame elapsed rnd fuel s = some s ∧
    (∃ t, event e s = some t ∧ t.state = vm_state.VM_STOPPED ∧ t.pc = s.pc ∧ t.i = s.i ∧
      t.v = s.v ∧ t.stack = s.stack ∧ t.stack_top = s.stack_top ∧ t.memory = s.memory ∧
      t.display = s.display ∧ t.delay_timer = s.delay_timer ∧
      t.sound_timer = s.sound_timer) ∧
    (program_data.length ≤ 3584 →
      (prepare_program program_data s).state = vm_state.VM_RUN) ∧
    (3584 < program_data.length →
      prepare_program program_data s = { s with state := vm_state.VM_INIT }) := by
  refine ⟨?_, ?_, ?_, ?_⟩
  · simp [frame, hs]
  · simp only [event]
    split_ifs <;>
      first
        | exact ⟨_, rfl, hs, rfl, rfl, rfl, rfl, rfl, rfl, rfl, rfl, rfl⟩
        | (exfalso; simp_all)
  · intro h
    have hn : ¬ program_data.length > MEMORY_SIZE - PROGRAM_OFFSET := by
      simp only [MEMORY_SIZE, PROGRAM_OFFSET]; omega
    simp only [prepare_program, if_neg hn]
  · intro h
    exact prepare_program_of_gt program_data s (by simp only [MEMORY_SIZE, PROGRAM_OFFSET]; omega)

/-- Witness for `stopped_absorbs_frames_and_keys`: the machine stopped by the undefined
word `8abf`, then one frame, one key release and a load of two bytes. -/
theorem stopped_absorbs_frames_and_keys_witness :
    (STOP (prepare_program [0x8a, 0xbf] zeroed)).state = vm_state.VM_STOPPED ∧
    frame 16667 (fun _ => 0) 100 (STOP (prepare_program [0x8a, 0xbf] zeroed)) =
      some (STOP (prepare_program [0x8a, 0xbf] zeroed)) ∧
    (∃ t, event ⟨sapp_event_type.SAPP_EVENTTYPE_KEY_UP, sapp_keycode.SAPP_KEYCODE_X⟩
        (STOP (prepare_program [0x8a, 0xbf] zeroed)) = some t ∧
      t.state = vm_state.VM_STOPPED ∧ t.pc = 0x200) ∧
    (prepare_program [0x12, 0x00] (STOP (prepare_program [0x8a, 0xbf] zeroed))).state =
      vm_state.VM_RUN := by
  obtain ⟨h1, ⟨t, ht, hst, hpc, -⟩, h3, -⟩ :=
    stopped_absorbs_frames_and_keys (STOP (prepare_program [0x8a, 0xbf] zeroed)) rfl 16667
      (fun _ => 0) 100 ⟨sapp_event_type.SAPP_EVENTTYPE_KEY_UP, sapp_keycode.SAPP_KEYCODE_X⟩
      [0x12, 0x00]
  exact ⟨rfl, h1, ⟨t, ht, hst, hpc⟩, h3 (by decide)⟩

/-- Claim C17 as stated fails: STOPPED is left by a rejected load as well. The program
`8abf` stops the machine in its first frame, with a blank display. Offering 3585 bytes
to `prepare_program` then sets the state to `VM_INIT`, and the next frame fills the
display with noise (here every byte `0xab`). -/
theorem stopped_left_by_rejected_load :
    (List.replicate 3585 0).length = 3585 ∧
    (frame 16667 (fun _ => 0xab) 1 (prepare_program [0x8a, 0xbf] zeroed)).map
      (fun s => (s.state, s.display 0,
        (prepare_program (List.replicate 3585 0) s).state,
        (frame 16667 (fun _ => 0xab) 1 (prepare_program (List.replicate 3585 0) s)).map
          (fun t => (t.state, t.display 0)))) =
      some (vm_state.VM_STOPPED, 0, vm_state.VM_INIT, some (vm_state.VM_INIT, 0xab)) := by
  have h : (List.replicate 3585 0).length > MEMORY_SIZE - PROGRAM_OFFSET := by
    rw [List.length_replicate]; decide
  refine ⟨List.length_replicate _ _, ?_⟩
  simp only [prepare_program_of_gt (List.replicate 3585 0) _ h]
  decide

/-- Claim C18: whenever one instruction, executed in a machine that is not STOPPED,
ends in state STOPPED, then memory, display, registers, index register, stack,
`stack_top`, both timers and the timer accumulator (and keys, `key_dest`, speed) are as
before; `pc` is advanced by 2 and the budget is 0. -/
theorem fatal_is_atomic (r : Nat) (s t : Vm) (hs : s.state ≠ vm_state.VM_STOPPED)
    (ht : run_vm_step r s = some t) (hstop : t.state = vm_state.VM_STOPPED) :
    t.memory = s.memory ∧ t.display = s.display ∧ t.v = s.v ∧ t.i = s.i ∧
    t.stack = s.stack ∧ t.stack_top = s.stack_top ∧ t.delay_timer = s.delay_timer ∧
    t.sound_timer = s.sound_timer ∧ t.timer_micros = s.timer_micros ∧
    t.keys = s.keys ∧ t.key_dest = s.key_dest ∧ t.speed_up = s.speed_up ∧
    t.pc = s.pc + 2 ∧ t.micros = 0 := by
  obtain ⟨hpc, hshape⟩ := run_vm_step_shape r s t ht
  have hu := u16_pc_add_two s hpc
  rcases hshape with rfl | rfl | ⟨n1, -, rfl⟩ | ⟨c, u, -, rfl, hst, -⟩
  · exact ⟨rfl, rfl, rfl, rfl, rfl, rfl, rfl, rfl, rfl, rfl, rfl, rfl, hu, rfl⟩
  · exact absurd hstop hs
  · exfalso
    change (run_timers _ _).state = _ at hstop
    rw [run_timers_state] at hstop
    exact vm_state.noConfusion hstop
  · exfalso
    rw [DELAY_state, hst] at hstop
    exact hs hstop

/-- Witness for `fatal_is_atomic`: the undefined word `8abf` stops the machine. -/
theorem fatal_is_atomic_witness :
    ∃ t, run_vm_step 0 (loaded_with [0x8a, 0xbf] 7 (fun _ => 3) (fun _ => 0xff)) = some t ∧
      t.state = vm_state.VM_STOPPED ∧ t.pc = 0x202 ∧ t.micros = 0 ∧ t.i = 7 ∧
      t.v = (fun _ => 3) ∧ t.display = (fun _ => 0xff) := by
  obtain ⟨t, ht⟩ := Option.isSome_iff_exists.mp
    (by decide : (run_vm_step 0
      (loaded_with [0x8a, 0xbf] 7 (fun _ => 3) (fun _ => 0xff))).isSome = true)
  have hstop : t.state = vm_state.VM_STOPPED := field_of_some _ _ _ _ ht (by decide)
  obtain ⟨-, hd, hv, hi, -, -, -, -, -, -, -, -, hpc, hm⟩ :=
    fatal_is_atomic 0 _ t (by decide) ht hstop
  exact ⟨t, ht, hstop, hpc, hm, hi, hv, hd⟩

/-! ## Splitting the elapsed time -/

end Chip8
